import Mathlib

/-!
Verification development for the weblog-hunter access-log threat hunter.

The definitions below are a shallow embedding of the Python sources
(`weblog_hunter/signatures.py`, `weblog_hunter/parser.py`,
`weblog_hunter/analyzer.py`).  Regular expressions are modelled by a small
executable matcher over an item syntax that covers exactly the constructs the
catalog patterns use (literals, word boundaries, character classes, optional
classes and starred classes).  Case-insensitive patterns lower-case the
subject text first, matching ASCII behaviour of the Python `(?i)` flag.
Python floats in scores are modelled as exact rationals.
-/

/-- Word characters, as in the regex class `\w` (ASCII fragment). -/
def isWordChar (c : Char) : Bool := c.isAlphanum || c == '_'

/-- Whitespace characters, as in the regex class `\s` (ASCII fragment). -/
def isSpaceChar (c : Char) : Bool :=
  c == ' ' || c == '\t' || c == '\n' || c == '\r' || c == '\x0b' || c == '\x0c'

/-- A single-quote character, kept as a named constant. -/
def squote : Char := Char.ofNat 39

/-- The string consisting of one single-quote character. -/
def squoteStr : String := String.singleton squote

/-- Double or single quote, as in the regex class of quote characters. -/
def isQuoteChar (c : Char) : Bool := c == '"' || c == squote

/-- Any character except a newline, as matched by `.` in a regex. -/
def isNotNl (c : Char) : Bool := !(c == '\n')

/-- Item syntax for the catalog regexes: a literal string, a word boundary,
one character of a class, an optional character of a class, or zero-or-more
characters of a class. -/
inductive RItem where
  | lit (s : String)
  | wb
  | cls (p : Char → Bool)
  | optCls (p : Char → Bool)
  | star (p : Char → Bool)

/-- Consume a literal from the front of a text, returning the rest. -/
def dropLit : List Char → List Char → Option (List Char)
  | [], text => some text
  | _ :: _, [] => none
  | c :: cs, t :: ts => if t == c then dropLit cs ts else none

/-- Word-character test on an optional character (absent counts as non-word). -/
def isWordOpt : Option Char → Bool
  | none => false
  | some c => isWordChar c

/-- Word boundary between a previous and a next character, as for `\b`. -/
def atBoundary (prev next : Option Char) : Bool := isWordOpt prev != isWordOpt next

/-- Last character of a literal, falling back to the previous character. -/
def lastCharOf (s : List Char) (prev : Option Char) : Option Char :=
  match s.getLast? with
  | some c => some c
  | none => prev

/-- Match a sequence of regex items at the current position.  `prev` is the
character just before the position (for word boundaries) and `fuel` bounds the
recursion; every call strictly decreases it and the callers supply more fuel
than any backtracking path can consume. -/
def matchItems : Nat → List RItem → Option Char → List Char → Bool
  | 0, _, _, _ => false
  | _ + 1, [], _, _ => true
  | fuel + 1, RItem.lit s :: rest, prev, text =>
    match dropLit s.data text with
    | some t => matchItems fuel rest (lastCharOf s.data prev) t
    | none => false
  | fuel + 1, RItem.wb :: rest, prev, text =>
    atBoundary prev text.head? && matchItems fuel rest prev text
  | fuel + 1, RItem.cls p :: rest, _, text =>
    match text with
    | [] => false
    | c :: cs => p c && matchItems fuel rest (some c) cs
  | fuel + 1, RItem.optCls p :: rest, prev, text =>
    matchItems fuel rest prev text ||
      (match text with
       | [] => false
       | c :: cs => p c && matchItems fuel rest (some c) cs)
  | fuel + 1, RItem.star p :: rest, prev, text =>
    matchItems fuel rest prev text ||
      (match text with
       | [] => false
       | c :: cs => p c && matchItems fuel (RItem.star p :: rest) (some c) cs)

/-- Try every alternative of a pattern at the current position. -/
def searchPos (fuel : Nat) (alts : List (List RItem)) (prev : Option Char)
    (text : List Char) : Bool :=
  alts.any (fun alt => matchItems fuel alt prev text)

/-- Try a pattern at every position of the text, like `re.search`. -/
def searchAll : Nat → List (List RItem) → Option Char → List Char → Bool
  | 0, _, _, _ => false
  | fuel + 1, alts, prev, text =>
    searchPos (fuel + 1) alts prev text ||
      (match text with
       | [] => false
       | c :: cs => searchAll fuel alts (some c) cs)

/-- Case-insensitive search of a pattern in a string, modelling
`re.compile(r"(?i)...").search`: the subject is lower-cased and every
alternative is tried at every position. -/
def rxSearch (alts : List (List RItem)) (s : String) : Bool :=
  let t := s.data.map Char.toLower
  searchAll (t.length + 200) alts none t

/-- Plain substring test, modelling the Python `in` operator on strings. -/
def containsSub (needle hay : List Char) : Bool :=
  (dropLit needle hay).isSome ||
    (match hay with
     | [] => false
     | _ :: cs => containsSub needle cs)

/-- SQL injection patterns, from `SQLI_PATTERNS` in `signatures.py`. -/
def SQLI_PATTERNS : List (List RItem) :=
  [[.wb, .lit "union", .wb],
   [.wb, .lit "select", .wb],
   [.wb, .lit "information_schema", .wb],
   [.wb, .lit "sleep", .star isSpaceChar, .lit "("],
   [.wb, .lit "benchmark", .star isSpaceChar, .lit "("],
   [.lit "--"],
   [.lit "/*"],
   [.lit "*/"],
   [.lit "%27"],
   [.lit squoteStr],
   [.wb, .lit "or", .cls isSpaceChar, .star isSpaceChar, .lit "1=1", .wb],
   [.wb, .lit "and", .cls isSpaceChar, .star isSpaceChar, .lit "1=1", .wb]]

/-- Path traversal / LFI patterns, from `TRAVERSAL_PATTERNS`. -/
def TRAVERSAL_PATTERNS : List (List RItem) :=
  [[.lit "../"],
   [.lit "%2e%2e%2f"],
   [.lit "%2e%2e\\"],
   [.lit "/etc/passwd"],
   [.lit "win.ini"],
   [.lit "..\\"],
   [.lit "%5c%2e%2e"]]

/-- Cross-site scripting patterns, from `XSS_PATTERNS`. -/
def XSS_PATTERNS : List (List RItem) :=
  [[.lit "<script"],
   [.lit "%3cscript"],
   [.lit "onerror="],
   [.lit "onload="],
   [.lit "alert", .star isSpaceChar, .lit "("],
   [.lit "javascript:"],
   [.lit "<iframe"],
   [.lit "<img", .cls isSpaceChar, .star isSpaceChar, .lit "src"],
   [.lit "eval", .star isSpaceChar, .lit "("],
   [.lit "<svg"],
   [.lit "onmouseover="]]

/-- Server-side request forgery patterns, from `SSRF_PATTERNS`. -/
def SSRF_PATTERNS : List (List RItem) :=
  [[.lit "http://"],
   [.lit "https://"],
   [.lit "%3a%2f%2f"],
   [.lit "169.254.169.254"],
   [.lit "localhost"],
   [.lit "127.0.0.1"],
   [.lit "0.0.0.0"],
   [.lit "::1"],
   [.lit "[::1]"],
   [.lit "metadata.google.internal"]]

/-- Command injection patterns, from `CMDI_PATTERNS`. -/
def CMDI_PATTERNS : List (List RItem) :=
  [[.wb, .lit "cat", .wb],
   [.wb, .lit "wget", .wb],
   [.wb, .lit "curl", .wb],
   [.lit ";"],
   [.lit "||"],
   [.lit "&&"],
   [.wb, .lit "/bin/sh", .wb],
   [.wb, .lit "powershell", .wb],
   [.wb, .lit "exec", .wb],
   [.wb, .lit "system", .wb],
   [.lit "$("],
   [.lit "`"],
   [.lit "<("],
   [.lit ">("]]

/-- Remote code execution patterns, from `RCE_PATTERNS`. -/
def RCE_PATTERNS : List (List RItem) :=
  [[.lit "eval("],
   [.lit "exec("],
   [.lit "system("],
   [.lit "passthru("],
   [.lit "shell_exec("],
   [.lit "phpinfo("],
   [.lit "assert("],
   [.lit "preg_replace", .star isSpaceChar, .lit "(", .star isNotNl, .lit "/e",
    .optCls isQuoteChar, .star isSpaceChar, .lit ","],
   [.lit "create_function("]]

/-- XML external entity patterns, from `XXE_PATTERNS`. -/
def XXE_PATTERNS : List (List RItem) :=
  [[.lit "<!entity", .cls isSpaceChar, .star isSpaceChar, .cls isWordChar,
    .star isWordChar, .cls isSpaceChar, .star isSpaceChar, .lit "system"],
   [.lit "<!doctype", .star isNotNl, .lit "entity"],
   [.lit "system", .cls isSpaceChar, .star isSpaceChar, .cls isQuoteChar, .lit "file:"],
   [.lit "system", .cls isSpaceChar, .star isSpaceChar, .cls isQuoteChar, .lit "http"]]

/-- LDAP injection patterns, from `LDAP_PATTERNS`. -/
def LDAP_PATTERNS : List (List RItem) :=
  [[.lit "*)"], [.lit "(|"], [.lit "&("], [.lit "|("]]

/-- NoSQL injection patterns, from `NOSQL_PATTERNS`. -/
def NOSQL_PATTERNS : List (List RItem) :=
  [[.lit "$ne"], [.lit "$gt"], [.lit "$lt"], [.lit "$where"], [.lit "$regex"],
   [.lit "[$"]]

/-- Scanner and tool user-agent patterns, from `SCANNER_PATTERNS`. -/
def SCANNER_PATTERNS : List (String × List (List RItem)) :=
  [("sqlmap", [[.wb, .lit "sqlmap", .wb]]),
   ("curl", [[.wb, .lit "curl/", .cls Char.isDigit]]),
   ("python-requests", [[.wb, .lit "python-requests", .wb]]),
   ("go-http-client", [[.wb, .lit "go-http-client", .wb]]),
   ("nikto", [[.wb, .lit "nikto", .wb]]),
   ("acunetix", [[.wb, .lit "acunetix", .wb]]),
   ("nmap", [[.wb, .lit "nmap", .wb]]),
   ("masscan", [[.wb, .lit "masscan", .wb]]),
   ("wget", [[.wb, .lit "wget/", .cls Char.isDigit]]),
   ("gobuster", [[.wb, .lit "gobuster", .wb]]),
   ("dirbuster", [[.wb, .lit "dirbuster", .wb]]),
   ("burpsuite", [[.wb, .lit "burp", .wb]]),
   ("zaproxy", [[.wb, .lit "zap", .wb]]),
   ("wpscan", [[.wb, .lit "wpscan", .wb]]),
   ("metasploit", [[.wb, .lit "metasploit", .wb]]),
   ("nuclei", [[.wb, .lit "nuclei", .wb]]),
   ("sqlninja", [[.wb, .lit "sqlninja", .wb]]),
   ("havij", [[.wb, .lit "havij", .wb]]),
   ("httperf", [[.wb, .lit "httperf", .wb]]),
   ("jmeter", [[.wb, .lit "jmeter", .wb]])]

/-- Generic bot and crawler patterns, from `BOT_USER_AGENTS`. -/
def BOT_USER_AGENTS : List (List RItem) :=
  [[.lit "bot"], [.lit "crawler"], [.lit "spider"], [.lit "scraper"],
   [.lit "slurp"], [.lit "googlebot"], [.lit "bingbot"], [.lit "yandexbot"],
   [.lit "baiduspider"], [.lit "facebookexternalhit"], [.lit "twitterbot"]]

/-- Identity and profile endpoint hints, from `IDENTITY_HINTS`. -/
def IDENTITY_HINTS : List (List RItem) :=
  [[.lit "whoami"], [.lit "profile"], [.lit "account"], [.lit "user"],
   [.lit "users"], [.lit "customer"], [.lit "customers"], [.lit "admin"],
   [.lit "member"]]

/-- Login and authentication endpoint hints, from `LOGIN_HINTS`. -/
def LOGIN_HINTS : List (List RItem) :=
  [[.lit "login"], [.lit "signin"], [.lit "auth"], [.lit "token"],
   [.lit "session"], [.lit "oauth"], [.lit "sso"], [.lit "authenticate"]]

/-- Value of a hexadecimal digit character, if it is one. -/
def hexVal (c : Char) : Option Nat :=
  if '0' ≤ c ∧ c ≤ '9' then some (c.toNat - '0'.toNat)
  else if 'a' ≤ c ∧ c ≤ 'f' then some (c.toNat - 'a'.toNat + 10)
  else if 'A' ≤ c ∧ c ≤ 'F' then some (c.toNat - 'A'.toNat + 10)
  else none

/-- One pass of URL percent-decoding over a character list: a percent sign
followed by two hexadecimal digits becomes the coded character, a malformed
escape passes through unchanged, modelling `urllib.parse.unquote` on ASCII
input. -/
def unquoteChars : List Char → List Char
  | [] => []
  | '%' :: a :: b :: rest =>
    match hexVal a, hexVal b with
    | some x, some y => Char.ofNat (16 * x + y) :: unquoteChars rest
    | _, _ => '%' :: unquoteChars (a :: b :: rest)
  | c :: rest => c :: unquoteChars rest

/-- Percent-decode a string once, as `urllib.parse.unquote` does. -/
def pyUnquote (s : String) : String := String.mk (unquoteChars s.data)

/-- The ordered attack catalog: category tags paired with their pattern
groups, in the fixed evaluation order of `detect_attacks`. -/
def ATTACK_CATALOG : List (String × List (List RItem)) :=
  [("SQLi", SQLI_PATTERNS),
   ("Traversal/LFI", TRAVERSAL_PATTERNS),
   ("XSS", XSS_PATTERNS),
   ("SSRF", SSRF_PATTERNS),
   ("CMDi/Shell", CMDI_PATTERNS),
   ("RCE", RCE_PATTERNS),
   ("XXE", XXE_PATTERNS),
   ("LDAP Injection", LDAP_PATTERNS),
   ("NoSQL Injection", NOSQL_PATTERNS)]

/-- Detect attack signatures in a URL, from
`SignatureDetector.detect_attacks`: percent-decode once, then test each
category group in the fixed order, appending its tag on a match. -/
def detect_attacks (url : String) : List String :=
  let decoded := pyUnquote url
  (if rxSearch SQLI_PATTERNS decoded then ["SQLi"] else []) ++
  (if rxSearch TRAVERSAL_PATTERNS decoded then ["Traversal/LFI"] else []) ++
  (if rxSearch XSS_PATTERNS decoded then ["XSS"] else []) ++
  (if rxSearch SSRF_PATTERNS decoded then ["SSRF"] else []) ++
  (if rxSearch CMDI_PATTERNS decoded then ["CMDi/Shell"] else []) ++
  (if rxSearch RCE_PATTERNS decoded then ["RCE"] else []) ++
  (if rxSearch XXE_PATTERNS decoded then ["XXE"] else []) ++
  (if rxSearch LDAP_PATTERNS decoded then ["LDAP Injection"] else []) ++
  (if rxSearch NOSQL_PATTERNS decoded then ["NoSQL Injection"] else [])

/-- First scanner entry whose pattern matches the user-agent. -/
def findScanner : List (String × List (List RItem)) → String → Option String
  | [], _ => none
  | (name, pat) :: rest, ua =>
    if rxSearch pat ua then some name else findScanner rest ua

/-- Literal browser markers tested by `detect_tool` (case-sensitive). -/
def browserMarks : List String := ["Mozilla/", "Chrome/", "Safari/", "Firefox/"]

/-- Case-sensitive test whether the user-agent contains a browser marker. -/
def looksLikeBrowser (ua : String) : Bool :=
  browserMarks.any (fun b => containsSub b.data ua.data)

/-- Detect a client tool from a user-agent string, from
`SignatureDetector.detect_tool`: empty gives none, then the scanner list in
order, then the browser markers, then the generic bot pattern. -/
def detect_tool (ua : String) : Option String :=
  if ua = "" then none
  else
    match findScanner SCANNER_PATTERNS ua with
    | some name => some name
    | none =>
      if looksLikeBrowser ua then some "browser"
      else if rxSearch BOT_USER_AGENTS ua then some "bot"
      else none

/-- Parsed timestamp fields, modelling a `datetime` value: calendar fields
plus an optional UTC offset in seconds (absent for a naive value). -/
structure Timestamp where
  year : Nat
  month : Nat
  day : Nat
  hour : Nat
  minute : Nat
  second : Nat
  tzOffset : Option Int
deriving DecidableEq

/-- Numeric value of a digit list read in base ten. -/
def digitsVal (l : List Char) : Nat :=
  l.foldl (fun a c => a * 10 + (c.toNat - 48)) 0

/-- Split off the maximal run of decimal digits. -/
def takeDigits (l : List Char) : List Char × List Char :=
  (l.takeWhile Char.isDigit, l.dropWhile Char.isDigit)

/-- Parse a numeric field of at most `maxLen` digits whose value lies in
`[lo, hi]`, as the `strptime` field regexes do when a non-digit delimiter
follows. -/
def numField (maxLen lo hi : Nat) (l : List Char) : Option (Nat × List Char) :=
  let (ds, rest) := takeDigits l
  if ds.length = 0 ∨ maxLen < ds.length then none
  else
    let v := digitsVal ds
    if lo ≤ v ∧ v ≤ hi then some (v, rest) else none

/-- Parse a day of the month: one or two digits valued 1 to 31, or a space
followed by a nonzero digit, as the `%d` field regex accepts. -/
def dayField (l : List Char) : Option (Nat × List Char) :=
  match l with
  | ' ' :: c :: rest =>
    if '1' ≤ c ∧ c ≤ '9' then some (c.toNat - 48, rest) else none
  | _ => numField 2 1 31 l

/-- Parse a year of exactly four digits, as `%Y` does. -/
def yearField (l : List Char) : Option (Nat × List Char) :=
  let (ds, rest) := takeDigits l
  if ds.length = 4 then some (digitsVal ds, rest) else none

/-- Abbreviated month names of the C locale, as `%b` accepts. -/
def monthAbbrevs : List (String × Nat) :=
  [("jan", 1), ("feb", 2), ("mar", 3), ("apr", 4), ("may", 5), ("jun", 6),
   ("jul", 7), ("aug", 8), ("sep", 9), ("oct", 10), ("nov", 11), ("dec", 12)]

/-- Parse a three-letter month abbreviation, case-insensitively. -/
def monthField (l : List Char) : Option (Nat × List Char) :=
  match l with
  | a :: b :: c :: rest =>
    match monthAbbrevs.lookup (String.mk [a.toLower, b.toLower, c.toLower]) with
    | some m => some (m, rest)
    | none => none
  | _ => none

/-- Expect one fixed character at the front of the text. -/
def expectChar (c : Char) : List Char → Option (List Char)
  | t :: ts => if t == c then some ts else none
  | [] => none

/-- Exactly two decimal digits. -/
def twoDigits : List Char → Option (Nat × List Char)
  | a :: b :: r => if a.isDigit && b.isDigit then some (digitsVal [a, b], r) else none
  | _ => none

/-- Require at least one whitespace character and consume the whole run, as a
greedy `\s+` followed by a non-whitespace item. -/
def eatWs1 : List Char → Option (List Char)
  | c :: cs => if isSpaceChar c then some (cs.dropWhile isSpaceChar) else none
  | [] => none

/-- Two digits whose value is at most 59, as the class `[0-5]\d` used for
offset minutes and seconds. -/
def twoDigitsMax59 : List Char → Option (Nat × List Char)
  | a :: b :: r =>
    if ('0' ≤ a ∧ a ≤ '5') ∧ b.isDigit then
      some ((a.toNat - 48) * 10 + (b.toNat - 48), r)
    else none
  | _ => none

/-- Optional fractional part after offset seconds: a dot and one to six
digits.  Its sub-second value is ignored by this model. -/
def tzFrac : List Char → List Char
  | '.' :: r =>
    let (ds, r2) := takeDigits r
    if 1 ≤ ds.length ∧ ds.length ≤ 6 then r2 else '.' :: r
  | l => l

/-- Signed part of a `%z` offset: two hour digits, then minutes and optional
seconds either both with colons or both without, minutes and seconds capped
at 59, optional fraction after seconds; the value is in seconds.
Inconsistent colon use fails, as `_strptime` raises on it. -/
def tzSigned (sign : Int) (l : List Char) : Option (Int × List Char) := do
  let (h, r1) ← twoDigits l
  match r1 with
  | ':' :: r2 => do
    let (m, r3) ← twoDigitsMax59 r2
    match r3 with
    | ':' :: r4 =>
      match twoDigitsMax59 r4 with
      | some (s, r5) =>
        some (sign * ((h : Int) * 3600 + (m : Int) * 60 + (s : Int)), tzFrac r5)
      | none => some (sign * ((h : Int) * 3600 + (m : Int) * 60), ':' :: r4)
    | _ => some (sign * ((h : Int) * 3600 + (m : Int) * 60), r3)
  | _ => do
    let (m, r3) ← twoDigitsMax59 r1
    match twoDigitsMax59 r3 with
    | some (s, r4) =>
      some (sign * ((h : Int) * 3600 + (m : Int) * 60 + (s : Int)), tzFrac r4)
    | none => some (sign * ((h : Int) * 3600 + (m : Int) * 60), r3)

/-- Parse a `%z` UTC offset: `Z` or a signed `HH[:]MM` with optional seconds. -/
def tzField (l : List Char) : Option (Int × List Char) :=
  match l with
  | 'Z' :: rest => some (0, rest)
  | '+' :: rest => tzSigned 1 rest
  | '-' :: rest => tzSigned (-1) rest
  | _ => none

/-- Gregorian leap-year test. -/
def isLeapYear (y : Nat) : Bool := (y % 4 == 0 && y % 100 != 0) || y % 400 == 0

/-- Number of days in a month. -/
def daysInMonth (y m : Nat) : Nat :=
  if m = 2 then (if isLeapYear y then 29 else 28)
  else if m = 4 ∨ m = 6 ∨ m = 9 ∨ m = 11 then 30
  else 31

/-- Calendar validity as enforced by the `datetime` constructor. -/
def validDate (y mo d : Nat) : Bool := 1 ≤ y && 1 ≤ d && d ≤ daysInMonth y mo

/-- Parse a timestamp against `%d/%b/%Y:%H:%M:%S %z` (when `withTz`) or
`%d/%b/%Y:%H:%M:%S`, requiring the whole string to be consumed and the
resulting calendar date, seconds and offset to be constructible, as
`datetime.strptime` does.  `_strptime` compiles literal whitespace in the
format to `\s+`, so one or more whitespace characters may separate the
seconds from the offset. -/
def parseTsFmt (withTz : Bool) (l : List Char) : Option Timestamp := do
  let (d, r1) ← dayField l
  let r2 ← expectChar '/' r1
  let (mo, r3) ← monthField r2
  let r4 ← expectChar '/' r3
  let (y, r5) ← yearField r4
  let r6 ← expectChar ':' r5
  let (h, r7) ← numField 2 0 23 r6
  let r8 ← expectChar ':' r7
  let (mi, r9) ← numField 2 0 59 r8
  let r10 ← expectChar ':' r9
  let (s, r11) ← numField 2 0 61 r10
  if withTz then do
    let r12 ← eatWs1 r11
    let (off, r13) ← tzField r12
    if r13 = [] ∧ validDate y mo d ∧ s ≤ 59 ∧ -86400 < off ∧ off < 86400 then
      some ⟨y, mo, d, h, mi, s, some off⟩
    else none
  else
    if r11 = [] ∧ validDate y mo d ∧ s ≤ 59 then
      some ⟨y, mo, d, h, mi, s, none⟩
    else none

/-- Parse an Apache timestamp, from `LogParser.parse_timestamp`: try the
format with a UTC offset first, then without; `none` when both fail. -/
def parse_timestamp (s : String) : Option Timestamp :=
  match parseTsFmt true s.data with
  | some t => some t
  | none => parseTsFmt false s.data

/-- Result of splitting a URL, as `urllib.parse.urlsplit` returns. -/
structure SplitUrl where
  scheme : String
  netloc : String
  path : String
  query : String
  fragment : String
deriving DecidableEq

/-- Characters allowed in a URL scheme after the first letter. -/
def schemeChar (c : Char) : Bool := c.isAlphanum || c == '+' || c == '-' || c == '.'

/-- Split a leading scheme off a URL: the text before the first colon, when it
starts with a letter and continues with scheme characters. -/
def splitScheme (l : List Char) : List Char × List Char :=
  match l.findIdx? (fun c => c == ':') with
  | none => ([], l)
  | some i =>
    if 0 < i ∧ (l.headD ' ').isAlpha ∧ ((l.take i).drop 1).all schemeChar then
      ((l.take i).map Char.toLower, l.drop (i + 1))
    else ([], l)

/-- Split a leading `//`-authority off a URL, up to the next `/`, `?` or `#`. -/
def splitNetloc (l : List Char) : List Char × List Char :=
  match l with
  | '/' :: '/' :: rest =>
    (rest.takeWhile (fun c => !(c == '/' || c == '?' || c == '#')),
     rest.dropWhile (fun c => !(c == '/' || c == '?' || c == '#')))
  | _ => ([], l)

/-- Split at the first occurrence of a character, dropping it; the second
component is empty when the character does not occur. -/
def splitOnChar (c : Char) (l : List Char) : List Char × List Char :=
  (l.takeWhile (fun t => !(t == c)),
   match l.dropWhile (fun t => !(t == c)) with
   | _ :: r => r
   | [] => [])

/-- Unbalanced square brackets in an authority: a `[` without `]` or a `]`
without `[`, the condition under which `urlsplit` raises
`ValueError("Invalid IPv6 URL")`. -/
def invalidIpv6Netloc (nl : List Char) : Bool :=
  (nl.contains '[' && !(nl.contains ']')) || (nl.contains ']' && !(nl.contains '['))

/-- Split a URL into scheme, authority, path, query and fragment, modelling
the splitting behaviour of `urllib.parse.urlsplit`: scheme first, then the
authority with its bracket-balance validation, then the fragment at the
first `#`, then the query at the first `?`.  The error case models the
`ValueError("Invalid IPv6 URL")` raised on an authority with unbalanced
brackets; without a leading `//` the authority is empty and the check never
fires, as in the source. -/
def urlsplitM (url : String) : Except String SplitUrl :=
  let (sch, r1) := splitScheme url.data
  let (nl, r2) := splitNetloc r1
  if invalidIpv6Netloc nl then Except.error "Invalid IPv6 URL"
  else
    let (r3, frag) := splitOnChar '#' r2
    let (pathC, q) := splitOnChar '?' r3
    Except.ok ⟨String.mk sch, String.mk nl, String.mk pathC, String.mk q, String.mk frag⟩

/-- Digits of an integer literal with single underscores allowed between
digits, as Python `int` accepts: an underscore must be followed by a digit. -/
def digitsValAcc (acc : Nat) : List Char → Option Nat
  | [] => some acc
  | c :: r =>
    if c == '_' then
      match r with
      | c2 :: r2 =>
        if c2.isDigit then digitsValAcc (acc * 10 + (c2.toNat - 48)) r2 else none
      | [] => none
    else if c.isDigit then digitsValAcc (acc * 10 + (c.toNat - 48)) r
    else none

/-- Nonempty digit sequence starting an integer literal. -/
def pyIntDigits (l : List Char) : Option Nat :=
  match l with
  | c :: r => if c.isDigit then digitsValAcc (c.toNat - 48) r else none
  | [] => none

/-- Python `int(str)`: surrounding whitespace is stripped, then an optional
sign followed by digits with optional single underscores; `none` models
`ValueError`. -/
def pyInt (s : String) : Option Int :=
  match ((s.data.dropWhile isSpaceChar).reverse.dropWhile isSpaceChar).reverse with
  | [] => none
  | c :: r =>
    if c == '+' then (pyIntDigits r).map (fun n => (n : Int))
    else if c == '-' then (pyIntDigits r).map (fun n => -(n : Int))
    else (pyIntDigits (c :: r)).map (fun n => (n : Int))

/-- The named groups of `COMBINED_LOG_REGEX` after a successful match. -/
structure RawGroups where
  ip : String
  ts : String
  method : String
  url : String
  httpver : Option String
  status : String
  bytesTok : String
  ref : Option String
  ua : Option String
deriving DecidableEq

/-- Split off the maximal run of non-whitespace, as a greedy `\S+`. -/
def spanNonSpace (l : List Char) : List Char × List Char :=
  (l.takeWhile (fun c => !isSpaceChar c), l.dropWhile (fun c => !isSpaceChar c))

/-- Split at the next occurrence of a character without consuming it, as a
greedy complementary class such as `[^"]*`. -/
def spanTo (c : Char) (l : List Char) : List Char × List Char :=
  (l.takeWhile (fun t => !(t == c)), l.dropWhile (fun t => !(t == c)))

/-- Split off the maximal run of ASCII uppercase letters, as `[A-Z]+`. -/
def spanUpper (l : List Char) : List Char × List Char :=
  (l.takeWhile Char.isUpper, l.dropWhile Char.isUpper)

/-- Optional trailing referer and user-agent pair
`(?:\s+"(?P<ref>[^"]*)"\s+"(?P<ua>[^"]*)")?`, tried greedily. -/
def refUaAttempt (l : List Char) : Option (String × String) := do
  let r1 ← eatWs1 l
  let r2 ← expectChar '"' r1
  let (ref, r3) := spanTo '"' r2
  let r4 ← expectChar '"' r3
  let r5 ← eatWs1 r4
  let r6 ← expectChar '"' r5
  let (ua, r7) := spanTo '"' r6
  let _ ← expectChar '"' r7
  some (String.mk ref, String.mk ua)

/-- Present-or-absent referer and user-agent groups. -/
def tryRefUa (l : List Char) : Option String × Option String :=
  match refUaAttempt l with
  | some (r, u) => (some r, some u)
  | none => (none, none)

/-- Tail of the combined-log pattern after the closing quote of the request
line: `\s+(?P<status>\d{3})\s+(?P<bytes>\S+)` and the optional quoted pair. -/
def parseTail (l : List Char) : Option (String × String × Option String × Option String) := do
  let r1 ← eatWs1 l
  match r1 with
  | d1 :: d2 :: d3 :: r2 =>
    if d1.isDigit && d2.isDigit && d3.isDigit then do
      let r3 ← eatWs1 r2
      let (bts, r4) := spanNonSpace r3
      if bts.isEmpty then none
      else
        let (ref, ua) := tryRefUa r4
        some (String.mk [d1, d2, d3], String.mk bts, ref, ua)
    else none
  | _ => none

/-- Try one split of the request target: first with an `HTTP/` version group
present, then with the closing quote immediately after the target, as the
regex engine orders its attempts. -/
def tryUrlAt (url rest : List Char) :
    Option (String × Option String × (String × String × Option String × Option String)) :=
  match (do
      let r1 ← eatWs1 rest
      let r2 ← dropLit "HTTP/".data r1
      let (hv, r3) := spanTo '"' r2
      if hv.isEmpty then none
      else do
        let r4 ← expectChar '"' r3
        let tl ← parseTail r4
        some (String.mk url, some (String.mk hv), tl)) with
  | some res => some res
  | none => do
    let r1 ← expectChar '"' rest
    let tl ← parseTail r1
    some (String.mk url, none, tl)

/-- Backtracking over the greedy `(?P<url>\S+)`: longest candidate first,
then successively shorter nonempty prefixes. -/
def tryUrlLens (u rest : List Char) :
    Nat → Option (String × Option String × (String × String × Option String × Option String))
  | 0 => none
  | k + 1 =>
    match tryUrlAt (u.take (k + 1)) (u.drop (k + 1) ++ rest) with
    | some res => some res
    | none => tryUrlLens u rest k

/-- Anchored match of `COMBINED_LOG_REGEX` against a line, producing the
named groups: address token, two ignored tokens, bracketed timestamp, quoted
request line with optional HTTP version, status, byte token, and the optional
referer and user-agent pair. -/
def matchCombined (line : String) : Option RawGroups := do
  let (ip, r1) := spanNonSpace line.data
  if ip.isEmpty then none
  else do
    let r2 ← eatWs1 r1
    let (t2, r3) := spanNonSpace r2
    if t2.isEmpty then none
    else do
      let r4 ← eatWs1 r3
      let (t3, r5) := spanNonSpace r4
      if t3.isEmpty then none
      else do
        let r6 ← eatWs1 r5
        let r7 ← expectChar '[' r6
        let (ts, r8) := spanTo ']' r7
        if ts.isEmpty then none
        else do
          let r9 ← expectChar ']' r8
          let r10 ← eatWs1 r9
          let r11 ← expectChar '"' r10
          let (m, r12) := spanUpper r11
          if m.isEmpty then none
          else do
            let r13 ← eatWs1 r12
            let (u, r14) := spanNonSpace r13
            if u.isEmpty then none
            else do
              let (url, hv, st, bts, ref, ua) ← tryUrlLens u r14 u.length
              some ⟨String.mk ip, String.mk ts, String.mk m, url, hv, st, bts, ref, ua⟩

/-- One parsed log entry, from the `LogEntry` dataclass.  The byte count is
an integer because Python `int` accepts signed tokens. -/
structure LogEntry where
  ip : String
  timestamp : Option Timestamp
  method : String
  url : String
  path : String
  query : String
  status : Nat
  bytes : Int
  user_agent : String
  referer : Option String
  tool : Option String
  abnormal : List String
deriving DecidableEq

/-- Build a `LogEntry` from matched groups, an already-parsed timestamp and
the split request target, following the body of `LogParser.parse_line`: fall
back to the raw target when the path is empty, turn `-`, empty or unparsable
byte tokens into zero, and annotate with detected attacks and tool. -/
def buildEntry (g : RawGroups) (timestamp : Option Timestamp) (su : SplitUrl) : LogEntry :=
  let url := g.url
  let path := if su.path = "" then url else su.path
  let query := su.query
  let bytes_val : Int :=
    if g.bytesTok = "-" ∨ g.bytesTok = "" then 0
    else (pyInt g.bytesTok).getD 0
  let user_agent := g.ua.getD ""
  { ip := g.ip, timestamp := timestamp, method := g.method, url := url,
    path := path, query := query, status := digitsVal g.status.data,
    bytes := bytes_val, user_agent := user_agent, referer := g.ref,
    tool := detect_tool user_agent, abnormal := detect_attacks url }

/-- Parse one raw log line, from `LogParser.parse_line`: `ok none` when the
combined-log pattern does not match, otherwise an entry whose timestamp may
be absent.  The `ValueError` that `urlsplit` raises on a request target with
an unbalanced-bracket authority propagates out unhandled, modelled by the
error case. -/
def parse_line (line : String) : Except String (Option LogEntry) :=
  match matchCombined line with
  | none => Except.ok none
  | some g =>
    match urlsplitM g.url with
    | Except.error e => Except.error e
    | Except.ok su => Except.ok (some (buildEntry g (parse_timestamp g.ts) su))

/-- Strip trailing newline characters, as `line.rstrip("\n")`. -/
def stripNl (line : String) : String :=
  String.mk ((line.data.reverse.dropWhile (fun c => c == '\n')).reverse)

/-- The per-line loop of `LogParser.parse_file` over a list of raw lines:
empty lines are skipped, unmatched lines are counted as failures, parsed
entries are kept in order, and an exception escaping `parse_line` aborts the
loop before any later line is read. -/
def parse_file_lines : List String → Except String (List LogEntry × Nat)
  | [] => Except.ok ([], 0)
  | line :: rest =>
    let l := stripNl line
    if l = "" then parse_file_lines rest
    else
      match parse_line l with
      | Except.error e => Except.error e
      | Except.ok none =>
        match parse_file_lines rest with
        | Except.error e => Except.error e
        | Except.ok (es, fs) => Except.ok (es, fs + 1)
      | Except.ok (some entry) =>
        match parse_file_lines rest with
        | Except.error e => Except.error e
        | Except.ok (es, fs) => Except.ok (entry :: es, fs)

/-- Grouping with keys in first-occurrence order: every key maps to the
ordered list of its elements, as a Python dict built by appending.  The fuel
is the list length, which always suffices because the recursive call is on a
filtered sublist of the tail. -/
def groupByKeyF {α κ : Type} [DecidableEq κ] (key : α → κ) :
    Nat → List α → List (κ × List α)
  | 0, _ => []
  | _, [] => []
  | f + 1, x :: xs =>
    (key x, x :: xs.filter (fun y => key y == key x)) ::
      groupByKeyF key f (xs.filter (fun y => !(key y == key x)))

/-- Group a list by a key function, keys in first-occurrence order. -/
def groupByKey {α κ : Type} [DecidableEq κ] (key : α → κ) (l : List α) :
    List (κ × List α) :=
  groupByKeyF key l.length l

/-- Multiplicity table of a list, as `collections.Counter`: distinct values
in first-occurrence order, each with its count. -/
def counterOf {κ : Type} [DecidableEq κ] (l : List κ) : List (κ × Nat) :=
  (groupByKey (fun k => k) l).map (fun p => (p.1, p.2.length))

/-- Maximum of a list of naturals, zero when empty, as
`max(...) if ... else 0`. -/
def foldMax (l : List Nat) : Nat := l.foldr max 0

/-- Distinct values of a list in first-occurrence order.  Python builds
`list(set(...))`, whose order is unspecified; the claims verified here do
not depend on the order of this list. -/
def dedupF (l : List String) : List String :=
  (groupByKey (fun s => s) l).map (fun p => p.1)

/-- Stable descending insertion by key: the new element goes in front of the
first element whose key is not larger, so earlier elements precede equal
keyed later ones, as `list.sort(key=..., reverse=True)`. -/
def insDesc {α β : Type} [LinearOrder β] (key : α → β) (x : α) : List α → List α
  | [] => [x]
  | y :: ys => if key y ≤ key x then x :: y :: ys else y :: insDesc key x ys

/-- Stable sort by key, descending. -/
def sortDesc {α β : Type} [LinearOrder β] (key : α → β) : List α → List α
  | [] => []
  | x :: xs => insDesc key x (sortDesc key xs)

/-- Stable ascending insertion by key. -/
def insAsc {α β : Type} [LinearOrder β] (key : α → β) (x : α) : List α → List α
  | [] => [x]
  | y :: ys => if key x ≤ key y then x :: y :: ys else y :: insAsc key x ys

/-- Stable sort by key, ascending, as `sorted(..., key=...)`. -/
def sortAsc {α β : Type} [LinearOrder β] (key : α → β) : List α → List α
  | [] => []
  | x :: xs => insAsc key x (sortAsc key xs)

/-- Analysis record for one address, from the `IPAnalysis` dataclass.  The
composite score is an exact rational. -/
structure IPAnalysis where
  ip : String
  request_count : Nat
  score : ℚ
  status_codes : List (Nat × Nat)
  abnormal_count : Nat
  login_attempts : Nat
  identity_queries : Nat
  max_requests_per_minute : Nat
  top_paths : List (String × Nat)
  abnormal_examples : List LogEntry
  tools_used : List String
deriving DecidableEq

/-- Left-pad a natural to two digits, as `strftime` field formatting. -/
def pad2 (n : Nat) : String := if n < 10 then "0" ++ toString n else toString n

/-- Left-pad a natural to four digits. -/
def pad4 (n : Nat) : String :=
  if n < 10 then "000" ++ toString n
  else if n < 100 then "00" ++ toString n
  else if n < 1000 then "0" ++ toString n
  else toString n

/-- Minute bucket of a timestamp, as `strftime("%Y-%m-%d %H:%M")`. -/
def minuteKey (t : Timestamp) : String :=
  pad4 t.year ++ "-" ++ pad2 t.month ++ "-" ++ pad2 t.day ++ " " ++
    pad2 t.hour ++ ":" ++ pad2 t.minute

/-- An event carries at least one attack tag, as truthiness of `e.abnormal`. -/
def hasAttackTags (e : LogEntry) : Bool := !e.abnormal.isEmpty

/-- The event path matches the login vocabulary. -/
def isLoginPath (e : LogEntry) : Bool := rxSearch LOGIN_HINTS e.path

/-- The event path matches the identity vocabulary. -/
def isIdentityPath (e : LogEntry) : Bool := rxSearch IDENTITY_HINTS e.path

/-- Client-error status range. -/
def in4xx (s : Nat) : Bool := 400 ≤ s && s ≤ 499

/-- Server-error status range. -/
def in5xx (s : Nat) : Bool := 500 ≤ s && s ≤ 599

/-- Success status range. -/
def in2xx (s : Nat) : Bool := 200 ≤ s && s ≤ 299

/-- Analyze one address group, from `ThreatAnalyzer._analyze_ip`: status
histogram, range sums, behavioural counts, per-minute burst maximum, the
weighted composite score, most frequent paths, example abnormal events and
the distinct tool list. -/
def analyze_ip (ip : String) (events : List LogEntry) : IPAnalysis :=
  let n := events.length
  let status_codes := counterOf (events.map (fun e => e.status))
  let s4xx : Nat := ((status_codes.filter (fun p => in4xx p.1)).map (fun p => p.2)).sum
  let s5xx : Nat := ((status_codes.filter (fun p => in5xx p.1)).map (fun p => p.2)).sum
  let abnormal_count := (events.filter hasAttackTags).length
  let login_attempts := (events.filter isLoginPath).length
  let identity_queries := (events.filter isIdentityPath).length
  let per_minute := counterOf (events.filterMap (fun e => e.timestamp.map minuteKey))
  let max_rpm := foldMax (per_minute.map (fun p => p.2))
  let score : ℚ :=
    0.002 * (n : ℚ) + 0.02 * (s5xx : ℚ) + 0.01 * (s4xx : ℚ) +
      0.05 * (abnormal_count : ℚ) + 0.03 * (login_attempts : ℚ) +
      0.02 * (identity_queries : ℚ) + 0.01 * (max_rpm : ℚ)
  let path_counter := counterOf (events.map (fun e => e.path))
  let top_paths := (sortDesc (fun p => p.2) path_counter).take 10
  let abnormal_examples := (events.filter hasAttackTags).take 8
  let tools := dedupF (events.filterMap (fun e => e.tool))
  { ip := ip, request_count := n, score := score, status_codes := status_codes,
    abnormal_count := abnormal_count, login_attempts := login_attempts,
    identity_queries := identity_queries, max_requests_per_minute := max_rpm,
    top_paths := top_paths, abnormal_examples := abnormal_examples,
    tools_used := tools }

/-- Score every address group with enough requests and sort the analyses by
score, descending and stable, from `ThreatAnalyzer._score_ips`. -/
def score_ips (min_requests : Nat) (by_ip : List (String × List LogEntry)) :
    List IPAnalysis :=
  sortDesc (fun a => a.score)
    ((by_ip.filter (fun p => decide (min_requests ≤ p.2.length))).map
      (fun p => analyze_ip p.1 p.2))

/-- Chronological key of a timestamp; models comparison of parsed log
timestamps of the same kind.  No verified claim depends on this order. -/
def tsKey (t : Timestamp) : Nat :=
  ((((t.year * 13 + t.month) * 32 + t.day) * 24 + t.hour) * 60 + t.minute) * 60 +
    t.second

/-- Timestamp order used by the first-seen fold. -/
def tsLt (a b : Timestamp) : Bool := tsKey a < tsKey b

/-- Keep the earliest timestamp per tool name in an association list. -/
def updateFirstSeen (acc : List (String × Timestamp)) (tool : String)
    (ts : Timestamp) : List (String × Timestamp) :=
  match acc with
  | [] => [(tool, ts)]
  | (t, old) :: rest =>
    if t = tool then (t, if tsLt ts old then ts else old) :: rest
    else (t, old) :: updateFirstSeen rest tool ts

/-- Earliest appearance of every detected tool with a timestamp, sorted
ascending by time, from `ThreatAnalyzer._find_tools_first_seen`. -/
def find_tools_first_seen (entries : List LogEntry) : List (String × Timestamp) :=
  let m := entries.foldl (fun acc e =>
    match e.tool, e.timestamp with
    | some t, some ts => updateFirstSeen acc t ts
    | _, _ => acc) []
  sortAsc (fun p => tsKey p.2) m

/-- Exposure record for one endpoint, from the `EndpointVulnerability`
dataclass.  All counters are integers. -/
structure EndpointVulnerability where
  endpoint : String
  score : Nat
  sqli_hits : Nat
  sqli_500 : Nat
  unique_payloads : Nat
  examples : List String
deriving DecidableEq

/-- The event carries the SQLi tag. -/
def sqliTagged (e : LogEntry) : Bool := e.abnormal.contains "SQLi"

/-- First `n` characters of a string, as a Python slice. -/
def strTake (s : String) (n : Nat) : String := String.mk (s.data.take n)

/-- Statistics of one endpoint over its SQLi-tagged hits: hit count, 5xx
count, distinct 200-character payload signatures, up to five example raw
targets, and the weighted score. -/
def mkVuln (path : String) (hits : List LogEntry) : EndpointVulnerability :=
  let nh := hits.length
  let n5 := (hits.filter (fun e => in5xx e.status)).length
  let payloads := (dedupF (hits.map (fun e => strTake e.url 200))).length
  { endpoint := path, score := 3 * nh + 2 * n5 + payloads, sqli_hits := nh,
    sqli_500 := n5, unique_payloads := payloads,
    examples := (hits.map (fun e => e.url)).take 5 }

/-- Rank endpoints by SQLi exposure, from
`ThreatAnalyzer._rank_vulnerable_endpoints`: group the SQLi-tagged events by
path in encounter order, build the per-path statistics, and sort by score,
descending and stable. -/
def rank_vulnerable_endpoints (entries : List LogEntry) :
    List EndpointVulnerability :=
  let sqli := entries.filter sqliTagged
  sortDesc (fun v => v.score)
    ((groupByKey (fun e => e.path) sqli).map (fun p => mkVuln p.1 p.2))

/-- Accumulated identity-scraping statistics of one candidate address. -/
structure ScrapeStats where
  hits : Nat
  ok : Nat
  bytes : List Int
  paths : List (String × Nat)
deriving DecidableEq

/-- Statistics over the identity-matching events of one address. -/
def mkScrapeStats (es : List LogEntry) : ScrapeStats :=
  { hits := es.length,
    ok := (es.filter (fun e => in2xx e.status)).length,
    bytes := es.map (fun e => e.bytes),
    paths := counterOf (es.map (fun e => e.path)) }

/-- Look up the event group of an address. -/
def lookupGroup (by_ip : List (String × List LogEntry)) (ip : String) :
    Option (List LogEntry) :=
  (by_ip.find? (fun p => p.1 == ip)).map (fun p => p.2)

/-- Candidate addresses of the scrape inference: each ranked address whose
group holds at least one identity-matching event, with its statistics.  The
ranked addresses are pairwise distinct, so the consecutive per-event updates
of the Python loop collapse into one aggregate per address. -/
def scrape_candidates (by_ip : List (String × List LogEntry))
    (top_ips : List String) : List (String × ScrapeStats) :=
  top_ips.filterMap (fun ip =>
    match lookupGroup by_ip ip with
    | none => none
    | some g =>
      let es := g.filter isIdentityPath
      if es.isEmpty then none else some (ip, mkScrapeStats es))

/-- Mean byte count of a candidate, as `sum(bytes) / max(1, len(bytes))`. -/
def meanBytes (sc : ScrapeStats) : ℚ :=
  (sc.bytes.sum : ℚ) / ((max 1 sc.bytes.length : Nat) : ℚ)

/-- Comparison triple of a candidate: hits, successes, mean bytes. -/
def scMetric (sc : ScrapeStats) : Nat × Nat × ℚ := (sc.hits, sc.ok, meanBytes sc)

/-- Strict lexicographic comparison of metric triples, as Python tuple `>`. -/
def metricGt (a b : Nat × Nat × ℚ) : Bool :=
  decide (b.1 < a.1) ||
    (a.1 == b.1 &&
      (decide (b.2.1 < a.2.1) ||
        (a.2.1 == b.2.1 && decide (b.2.2 < a.2.2))))

/-- One step of the best-candidate selection: a candidate without hits is
skipped, and a later candidate replaces the current best only when its metric
is strictly greater. -/
def pickStep (best : Option (String × ScrapeStats)) (c : String × ScrapeStats) :
    Option (String × ScrapeStats) :=
  if c.2.hits == 0 then best
  else
    match best with
    | none => some c
    | some b => if metricGt (scMetric c.2) (scMetric b.2) then some c else some b

/-- Fold of the best-candidate selection over the candidate list. -/
def pickBest (cands : List (String × ScrapeStats)) :
    Option (String × ScrapeStats) :=
  cands.foldl pickStep none

/-- First key of maximal count in a counter, as `Counter.most_common(1)`. -/
def most_common1 (c : List (String × Nat)) : String :=
  let m := foldMax (c.map (fun p => p.2))
  match c.find? (fun p => p.2 == m) with
  | some p => p.1
  | none => ""

/-- Infer the scraped section, from `ThreatAnalyzer._infer_scrape_section`:
among the ranked addresses with identity hits, the most-hit identity path of
the candidate with the lexicographically greatest metric triple. -/
def infer_scrape_section (by_ip : List (String × List LogEntry))
    (top_ips : List String) : Option String :=
  (pickBest (scrape_candidates by_ip top_ips)).map (fun c => most_common1 c.2.paths)

/-- The terminal analysis artifact, from the `AnalysisResult` dataclass. -/
structure AnalysisResult where
  files_read : Nat
  parsed_events : Nat
  parse_failures : Nat
  top_suspicious_ips : List IPAnalysis
  tools_first_seen : List (String × Timestamp)
  vulnerable_endpoints : List EndpointVulnerability
  inferred_scrape_section : Option String
  all_events : List LogEntry
deriving DecidableEq

/-- Group the event collection by source address, keys in first-occurrence
order, as the `defaultdict(list)` loop of `ThreatAnalyzer.analyze`. -/
def groupByIp (entries : List LogEntry) : List (String × List LogEntry) :=
  groupByKey (fun e => e.ip) entries

/-- Complete analysis, from `ThreatAnalyzer.analyze`: group by address,
score and rank, truncate to the top `top_n`, collect tool first-seen pairs,
rank endpoints, and infer the scrape section from the ranked addresses.  The
file and failure counters are written as zero, to be set by the caller. -/
def analyze (min_requests top_n : Nat) (entries : List LogEntry) : AnalysisResult :=
  let by_ip := groupByIp entries
  let ip_analyses := score_ips min_requests by_ip
  let top_ips := ip_analyses.take top_n
  { files_read := 0, parsed_events := entries.length, parse_failures := 0,
    top_suspicious_ips := top_ips,
    tools_first_seen := find_tools_first_seen entries,
    vulnerable_endpoints := rank_vulnerable_endpoints entries,
    inferred_scrape_section := infer_scrape_section by_ip (top_ips.map (fun a => a.ip)),
    all_events := entries }

/-- A whole-word, case-insensitive occurrence of a name in a string: the
name surrounded by word boundaries, as the claim describes catalog-name
matching. -/
def wholeWordCI (name ua : String) : Bool := rxSearch [[.wb, .lit name, .wb]] ua

/-- All fields of an entry except the timestamp, for comparing extraction
across timestamp outcomes. -/
def nonTsFields (e : LogEntry) :
    String × String × String × String × String × Nat × Int × String ×
      Option String × Option String × List String :=
  (e.ip, e.method, e.url, e.path, e.query, e.status, e.bytes, e.user_agent,
    e.referer, e.tool, e.abnormal)

/-- The conditional-append chain of `detect_attacks` over a generic catalog:
each matching category contributes its tag, in catalog order. -/
def chainTags (cat : List (String × List (List RItem))) (d : String) : List String :=
  cat.foldr (fun p acc => (if rxSearch p.2 d then [p.1] else []) ++ acc) []

/-- A count splits over any second predicate. -/
theorem countP_split {α : Type} (p q : α → Bool) :
    ∀ l : List α,
      l.countP p = l.countP (fun a => p a && q a) + l.countP (fun a => p a && !q a)
  | [] => by simp
  | x :: xs => by
    have ih := countP_split p q xs
    by_cases hp : p x = true <;> by_cases hq : q x = true <;>
      simp [List.countP_cons, hp, hq, ih] <;> omega

/-- Soundness of the fueled grouping: every produced group is keyed by some
member of the list and holds exactly the elements with that key, in order. -/
theorem groupByKeyF_sound {α κ : Type} [DecidableEq κ] (key : α → κ) :
    ∀ (f : Nat) (l : List α), l.length ≤ f →
      ∀ p ∈ groupByKeyF key f l,
        (∃ x ∈ l, key x = p.1) ∧ p.2 = l.filter (fun y => key y == p.1) := by
  intro f
  induction f with
  | zero =>
    intro l hl p hp
    have hnil : l = [] := List.length_eq_zero.mp (Nat.le_zero.mp hl)
    subst hnil
    simp [groupByKeyF] at hp
  | succ f ih =>
    intro l hl p hp
    match l with
    | [] => simp [groupByKeyF] at hp
    | x :: xs =>
      simp only [groupByKeyF, List.mem_cons] at hp
      rcases hp with rfl | hp
      · refine ⟨⟨x, List.mem_cons_self x xs, rfl⟩, ?_⟩
        simp [List.filter_cons]
      · have hxs : xs.length ≤ f := by
          simpa using Nat.succ_le_succ_iff.mp (by simpa using hl)
        have hlen : (xs.filter (fun y => !(key y == key x))).length ≤ f :=
          le_trans (List.length_filter_le _ _) hxs
        obtain ⟨⟨y, hy, hkey⟩, hval⟩ := ih _ hlen p hp
        have hy' := List.mem_filter.mp hy
        have hyne : key y ≠ key x := by simpa using hy'.2
        have hne : p.1 ≠ key x := hkey ▸ hyne
        refine ⟨⟨y, List.mem_cons_of_mem _ hy'.1, hkey⟩, ?_⟩
        have hx : (key x == p.1) = false := by
          simp only [beq_eq_false_iff_ne, ne_eq]
          exact fun h => hne h.symm
        rw [hval, List.filter_filter, List.filter_cons]
        simp only [hx, Bool.false_eq_true, if_false]
        refine List.filter_congr (fun a _ => ?_)
        by_cases hc : (key a == p.1) = true
        · have : key a ≠ key x := by
            have : key a = p.1 := by simpa using hc
            rw [this]; exact hne
          simp [hc, this]
        · simp [Bool.eq_false_iff.mpr hc]

/-- Completeness of the fueled grouping: every member of the list has a
group keyed by its key. -/
theorem groupByKeyF_complete {α κ : Type} [DecidableEq κ] (key : α → κ) :
    ∀ (f : Nat) (l : List α) (x : α), l.length ≤ f → x ∈ l →
      ∃ p ∈ groupByKeyF key f l, p.1 = key x := by
  intro f
  induction f with
  | zero =>
    intro l x hl hx
    have hnil : l = [] := List.length_eq_zero.mp (Nat.le_zero.mp hl)
    subst hnil; simp at hx
  | succ f ih =>
    intro l x hl hx
    match l with
    | [] => simp at hx
    | a :: xs =>
      by_cases hk : key x = key a
      · exact ⟨(key a, a :: xs.filter (fun y => key y == key a)),
          by simp [groupByKeyF], hk.symm⟩
      · have hx' : x ∈ xs := by
          rcases List.mem_cons.mp hx with rfl | h
          · exact absurd rfl hk
          · exact h
        have hxs : xs.length ≤ f := by
          simpa using Nat.succ_le_succ_iff.mp (by simpa using hl)
        have hmem : x ∈ xs.filter (fun y => !(key y == key x)) ∨
            x ∈ xs.filter (fun y => !(key y == key a)) := by
          right
          exact List.mem_filter.mpr ⟨hx', by simpa using hk⟩
        obtain ⟨p, hp, hpk⟩ := ih (xs.filter (fun y => !(key y == key a))) x
          (le_trans (List.length_filter_le _ _) hxs)
          (List.mem_filter.mpr ⟨hx', by simpa using hk⟩)
        exact ⟨p, by simp [groupByKeyF, hp], hpk⟩

/-- Monotonicity of first-occurrence indices under a filter that removes no
element satisfying either predicate. -/
theorem findIdx_filter_mono {α : Type} (q p1 p2 : α → Bool)
    (h1 : ∀ y, p1 y = true → q y = true) (h2 : ∀ y, p2 y = true → q y = true) :
    ∀ l : List α, (∃ y ∈ l.filter q, p2 y = true) →
      (l.filter q).findIdx p1 < (l.filter q).findIdx p2 →
      l.findIdx p1 < l.findIdx p2 := by
  intro l
  induction l with
  | nil => simp
  | cons x xs ih =>
    intro hmem hlt
    by_cases hqx : q x = true
    · rw [List.filter_cons_of_pos hqx] at hlt hmem
      by_cases hp1 : p1 x = true
      · by_cases hp2 : p2 x = true
        · rw [List.findIdx_cons, List.findIdx_cons, hp1, hp2] at hlt
          simp at hlt
        · simp only [List.findIdx_cons, hp1, Bool.eq_false_iff.mpr hp2,
            cond_true, cond_false]
          omega
      · by_cases hp2 : p2 x = true
        · rw [List.findIdx_cons (p := p2), hp2] at hlt
          simp [List.findIdx_cons, Bool.eq_false_iff.mpr hp1] at hlt
        · rw [List.findIdx_cons, List.findIdx_cons (p := p2),
            Bool.eq_false_iff.mpr hp1, Bool.eq_false_iff.mpr hp2] at hlt
          simp only [cond_false] at hlt
          have hmem' : ∃ y ∈ xs.filter q, p2 y = true := by
            rcases hmem with ⟨y, hy, hpy⟩
            rcases List.mem_cons.mp hy with rfl | hy'
            · exact absurd hpy (Bool.eq_false_iff.mp (Bool.eq_false_iff.mpr hp2))
            · exact ⟨y, hy', hpy⟩
          have := ih hmem' (Nat.lt_of_succ_lt_succ hlt)
          simp only [List.findIdx_cons, Bool.eq_false_iff.mpr hp1,
            Bool.eq_false_iff.mpr hp2, cond_false]
          omega
    · have hqx' : q x = false := Bool.eq_false_iff.mpr hqx
      have hp1x : p1 x = false := by
        cases hc : p1 x with
        | true => exact absurd (h1 x hc) hqx
        | false => rfl
      have hp2x : p2 x = false := by
        cases hc : p2 x with
        | true => exact absurd (h2 x hc) hqx
        | false => rfl
      rw [List.filter_cons_of_neg (by simp [hqx'])] at hlt hmem
      have := ih hmem hlt
      simp only [List.findIdx_cons, hp1x, hp2x, cond_false]
      omega

/-- The fueled grouping lists its groups in strictly increasing order of the
first-occurrence index of their keys. -/
theorem groupByKeyF_pairwise {α κ : Type} [DecidableEq κ] (key : α → κ) :
    ∀ (f : Nat) (l : List α), l.length ≤ f →
      (groupByKeyF key f l).Pairwise
        (fun p q => l.findIdx (fun y => key y == p.1) <
          l.findIdx (fun y => key y == q.1)) := by
  intro f
  induction f with
  | zero =>
    intro l hl
    have hnil : l = [] := List.length_eq_zero.mp (Nat.le_zero.mp hl)
    subst hnil; simp [groupByKeyF]
  | succ f ih =>
    intro l hl
    match l with
    | [] => simp [groupByKeyF]
    | x :: xs =>
      have hxs : xs.length ≤ f := by
        simpa using Nat.succ_le_succ_iff.mp (by simpa using hl)
      have hlen : (xs.filter (fun y => !(key y == key x))).length ≤ f :=
        le_trans (List.length_filter_le _ _) hxs
      simp only [groupByKeyF]
      refine List.Pairwise.cons ?_ ?_
      · intro q hq
        obtain ⟨⟨y, hy, hkey⟩, _⟩ := groupByKeyF_sound key f _ hlen q hq
        have hy' := List.mem_filter.mp hy
        have hyne : key y ≠ key x := by simpa using hy'.2
        have hne : q.1 ≠ key x := hkey ▸ hyne
        have hhead : (key x == q.1) = false := by
          simp only [beq_eq_false_iff_ne, ne_eq]
          exact fun h => hne h.symm
        simp only [List.findIdx_cons, beq_self_eq_true, hhead, cond_true, cond_false]
        omega
      · have hrec := ih _ hlen
        refine hrec.imp_of_mem ?_
        intro p q hp hq hlt
        obtain ⟨⟨yp, hyp, hkp⟩, _⟩ := groupByKeyF_sound key f _ hlen p hp
        obtain ⟨⟨yq, hyq, hkq⟩, _⟩ := groupByKeyF_sound key f _ hlen q hq
        have hyp' := List.mem_filter.mp hyp
        have hyq' := List.mem_filter.mp hyq
        have hnp : p.1 ≠ key x := hkp ▸ (by simpa using hyp'.2)
        have hnq : q.1 ≠ key x := hkq ▸ (by simpa using hyq'.2)
        have hmono := findIdx_filter_mono (fun y => !(key y == key x))
          (fun y => key y == p.1) (fun y => key y == q.1)
          (fun y hy => by
            have : key y = p.1 := by simpa using hy
            simp [this, hnp])
          (fun y hy => by
            have : key y = q.1 := by simpa using hy
            simp [this, hnq])
          xs ⟨yq, hyq, by simp [hkq]⟩ hlt
        have hhp : (key x == p.1) = false := by
          simp only [beq_eq_false_iff_ne, ne_eq]; exact fun h => hnp h.symm
        have hhq : (key x == q.1) = false := by
          simp only [beq_eq_false_iff_ne, ne_eq]; exact fun h => hnq h.symm
        simp only [List.findIdx_cons, hhp, hhq, cond_false]
        omega

/-- Summing group sizes over the keys satisfying a predicate counts the
elements whose key satisfies it. -/
theorem groupByKeyF_countP_sum {α κ : Type} [DecidableEq κ] (key : α → κ)
    (P : κ → Bool) :
    ∀ (f : Nat) (l : List α), l.length ≤ f →
      (((groupByKeyF key f l).filter (fun p => P p.1)).map
        (fun p => p.2.length)).sum = l.countP (fun x => P (key x)) := by
  intro f
  induction f with
  | zero =>
    intro l hl
    have hnil : l = [] := List.length_eq_zero.mp (Nat.le_zero.mp hl)
    subst hnil; simp [groupByKeyF]
  | succ f ih =>
    intro l hl
    match l with
    | [] => simp [groupByKeyF]
    | x :: xs =>
      have hxs : xs.length ≤ f := by
        simpa using Nat.succ_le_succ_iff.mp (by simpa using hl)
      have hlen : (xs.filter (fun y => !(key y == key x))).length ≤ f :=
        le_trans (List.length_filter_le _ _) hxs
      have ihx := ih _ hlen
      rw [List.countP_filter] at ihx
      by_cases hPx : P (key x) = true
      · simp only [groupByKeyF, List.filter_cons, hPx, if_true, List.map_cons,
          List.sum_cons, List.countP_cons, hPx, ihx]
        have hsplit := countP_split (fun y => P (key y)) (fun y => key y == key x) xs
        have hc1 : xs.countP (fun y => P (key y) && (key y == key x)) =
            xs.countP (fun y => key y == key x) := by
          refine List.countP_congr (fun a _ => ?_)
          constructor
          · intro h; exact ((Bool.and_eq_true _ _).mp h).2
          · intro h
            have : key a = key x := by simpa using h
            simp [this, hPx]
        have hlenf : (xs.filter (fun y => key y == key x)).length =
            xs.countP (fun y => key y == key x) :=
          (List.countP_eq_length_filter _ _).symm
        simp only [List.length_cons, hlenf]
        omega
      · have hPx' : P (key x) = false := Bool.eq_false_iff.mpr hPx
        simp only [groupByKeyF, List.filter_cons, hPx', Bool.false_eq_true,
          if_false, List.countP_cons, hPx', ihx]
        have hcongr : xs.countP (fun y => P (key y) && !(key y == key x)) =
            xs.countP (fun y => P (key y)) := by
          refine List.countP_congr (fun a _ => ?_)
          constructor
          · intro h; exact ((Bool.and_eq_true _ _).mp h).1
          · intro h
            have hne : key a ≠ key x := by
              intro heq
              rw [heq] at h
              exact absurd h hPx
            simp [h, hne]
        simp [hcongr]

/-- The keys of the fueled grouping are pairwise distinct. -/
theorem groupByKeyF_keys_nodup {α κ : Type} [DecidableEq κ] (key : α → κ)
    (f : Nat) (l : List α) (hl : l.length ≤ f) :
    ((groupByKeyF key f l).map Prod.fst).Nodup := by
  refine List.Pairwise.map Prod.fst ?_ (groupByKeyF_pairwise key f l hl)
  intro p q hlt heq
  rw [heq] at hlt
  exact lt_irrefl _ hlt

/-- Two lists without duplicates and with the same members are permutations
of each other. -/
theorem perm_of_nodup_of_mem_iff {α : Type} [DecidableEq α] {l1 l2 : List α}
    (h1 : l1.Nodup) (h2 : l2.Nodup) (h : ∀ a, a ∈ l1 ↔ a ∈ l2) : l1.Perm l2 := by
  rw [List.perm_iff_count]
  intro a
  by_cases hm : a ∈ l1
  · rw [List.count_eq_one_of_mem h1 hm, List.count_eq_one_of_mem h2 ((h a).mp hm)]
  · rw [List.count_eq_zero_of_not_mem hm,
      List.count_eq_zero_of_not_mem (fun hc => hm ((h a).mpr hc))]

/-- The running maximum of a list of naturals is invariant under
permutation. -/
theorem foldMax_perm {l1 l2 : List Nat} (h : l1.Perm l2) : foldMax l1 = foldMax l2 := by
  unfold foldMax
  induction h with
  | nil => rfl
  | cons x _ ih => simp [List.foldr_cons, ih]
  | swap x y l =>
    simp only [List.foldr_cons]
    rw [Nat.max_left_comm]
  | trans _ _ ih1 ih2 => rw [ih1, ih2]

/-- The identity grouping lists exactly the distinct values: its keys are a
permutation of `dedup`. -/
theorem groupByKey_keys_perm_dedup {κ : Type} [DecidableEq κ] (l : List κ) :
    ((groupByKey (fun k => k) l).map Prod.fst).Perm l.dedup := by
  refine perm_of_nodup_of_mem_iff
    (groupByKeyF_keys_nodup (fun k => k) l.length l le_rfl)
    l.nodup_dedup ?_
  intro a
  rw [List.mem_dedup]
  constructor
  · intro ha
    obtain ⟨p, hp, rfl⟩ := List.mem_map.mp ha
    obtain ⟨⟨x, hx, hkey⟩, _⟩ :=
      groupByKeyF_sound (fun k => k) l.length l le_rfl p hp
    exact hkey ▸ hx
  · intro ha
    obtain ⟨p, hp, hkey⟩ :=
      groupByKeyF_complete (fun k => k) l.length l a le_rfl ha
    exact List.mem_map.mpr ⟨p, hp, hkey⟩

/-- The first-occurrence deduplication has the same length as `dedup`. -/
theorem dedupF_length (l : List String) : (dedupF l).length = l.dedup.length :=
  (groupByKey_keys_perm_dedup l).length_eq

/-- The multiplicities recorded by `counterOf` are, up to permutation, the
occurrence counts of the distinct values. -/
theorem counterOf_values_perm {κ : Type} [DecidableEq κ] (l : List κ) :
    ((counterOf l).map (fun p => p.2)).Perm (l.dedup.map (fun k => l.count k)) := by
  have hmap : (counterOf l).map (fun p => p.2) =
      ((groupByKey (fun k => k) l).map Prod.fst).map (fun k => l.count k) := by
    unfold counterOf
    rw [List.map_map, List.map_map]
    refine List.map_congr_left (fun p hp => ?_)
    obtain ⟨_, hval⟩ := groupByKeyF_sound (fun k => k) l.length l le_rfl p hp
    simp only [Function.comp_apply]
    rw [hval, List.count_eq_countP, List.countP_eq_length_filter]
  rw [hmap]
  exact (groupByKey_keys_perm_dedup l).map _

/-- The per-minute burst maximum of `counterOf` equals the maximum occurrence
count over the distinct values. -/
theorem foldMax_counterOf {κ : Type} [DecidableEq κ] (l : List κ) :
    foldMax ((counterOf l).map (fun p => p.2)) =
      foldMax (l.dedup.map (fun k => l.count k)) :=
  foldMax_perm (counterOf_values_perm l)

/-- Membership in a stable descending insertion. -/
theorem mem_insDesc {α β : Type} [LinearOrder β] (key : α → β) (x : α) :
    ∀ (l : List α) (a : α), a ∈ insDesc key x l ↔ a = x ∨ a ∈ l := by
  intro l
  induction l with
  | nil => intro a; simp [insDesc]
  | cons y ys ih =>
    intro a
    unfold insDesc
    by_cases h : key y ≤ key x
    · simp [h]
    · simp only [h, if_false, List.mem_cons, ih]
      tauto

/-- A stable descending insertion permutes the element onto the list. -/
theorem insDesc_perm {α β : Type} [LinearOrder β] (key : α → β) (x : α) :
    ∀ l : List α, (insDesc key x l).Perm (x :: l) := by
  intro l
  induction l with
  | nil => simp [insDesc]
  | cons y ys ih =>
    unfold insDesc
    by_cases h : key y ≤ key x
    · simp [h]
    · simp only [h, if_false]
      exact (ih.cons y).trans (List.Perm.swap x y ys)

/-- A stable descending sort is a permutation of its input. -/
theorem sortDesc_perm {α β : Type} [LinearOrder β] (key : α → β) :
    ∀ l : List α, (sortDesc key l).Perm l := by
  intro l
  induction l with
  | nil => simp [sortDesc]
  | cons x xs ih =>
    unfold sortDesc
    exact (insDesc_perm key x _).trans (ih.cons x)

/-- Inserting an element whose label is below every present label preserves
the combined order-and-stability invariant: keys descend, and on equal keys
the labels ascend. -/
theorem insDesc_pairwise {α β : Type} [LinearOrder β] (key : α → β)
    (idx : α → Nat) (x : α) :
    ∀ l : List α,
      l.Pairwise (fun a b => key b ≤ key a ∧ (key b = key a → idx a < idx b)) →
      (∀ y ∈ l, idx x < idx y) →
      (insDesc key x l).Pairwise
        (fun a b => key b ≤ key a ∧ (key b = key a → idx a < idx b)) := by
  intro l
  induction l with
  | nil => intro _ _; simp [insDesc]
  | cons y ys ih =>
    intro hp hidx
    have hy := List.pairwise_cons.mp hp
    unfold insDesc
    by_cases h : key y ≤ key x
    · simp only [h, if_true]
      refine List.Pairwise.cons ?_ hp
      intro z hz
      rcases List.mem_cons.mp hz with rfl | hz'
      · exact ⟨h, fun _ => hidx z (List.mem_cons_self _ _)⟩
      · refine ⟨le_trans (hy.1 z hz').1 h, fun _ => hidx z (List.mem_cons_of_mem _ hz')⟩
    · simp only [h, if_false]
      have hlt : key x < key y := lt_of_not_le h
      refine List.Pairwise.cons ?_ (ih hy.2 (fun z hz => hidx z (List.mem_cons_of_mem _ hz)))
      intro z hz
      rcases (mem_insDesc key x ys z).mp hz with rfl | hz'
      · exact ⟨le_of_lt hlt, fun heq => absurd hlt (heq ▸ lt_irrefl _)⟩
      · exact hy.1 z hz'

/-- Stability of the descending sort: when the input carries strictly
ascending labels, the output keys descend and equal keys keep ascending
labels. -/
theorem sortDesc_pairwise {α β : Type} [LinearOrder β] (key : α → β)
    (idx : α → Nat) :
    ∀ l : List α, l.Pairwise (fun a b => idx a < idx b) →
      (sortDesc key l).Pairwise
        (fun a b => key b ≤ key a ∧ (key b = key a → idx a < idx b)) := by
  intro l
  induction l with
  | nil => intro _; simp [sortDesc]
  | cons x xs ih =>
    intro hp
    have hx := List.pairwise_cons.mp hp
    unfold sortDesc
    refine insDesc_pairwise key idx x _ (ih hx.2) ?_
    intro y hy
    exact hx.1 y (((sortDesc_perm key xs).mem_iff).mp hy)

/-- Lexicographic packaging of a metric triple. -/
def metricLex (m : Nat × Nat × ℚ) : ℕ ×ₗ (ℕ ×ₗ ℚ) := toLex (m.1, toLex (m.2.1, m.2.2))

/-- The boolean strict comparison agrees with the lexicographic order. -/
theorem metricGt_iff_lt (a b : Nat × Nat × ℚ) :
    metricGt a b = true ↔ metricLex b < metricLex a := by
  unfold metricLex
  rw [Prod.Lex.lt_iff]
  simp only [metricGt, Bool.or_eq_true, Bool.and_eq_true, decide_eq_true_eq,
    beq_iff_eq, Prod.Lex.lt_iff]
  constructor
  · rintro (h | ⟨he, (h2 | ⟨he2, h3⟩)⟩)
    · exact Or.inl h
    · exact Or.inr ⟨he.symm, Or.inl h2⟩
    · exact Or.inr ⟨he.symm, Or.inr ⟨he2.symm, h3⟩⟩
  · rintro (h | ⟨he, (h2 | ⟨he2, h3⟩)⟩)
    · exact Or.inl h
    · exact Or.inr ⟨he.symm, Or.inl h2⟩
    · exact Or.inr ⟨he.symm, Or.inr ⟨he2.symm, h3⟩⟩

/-- No metric is strictly greater than itself. -/
theorem metricGt_irrefl (a : Nat × Nat × ℚ) : metricGt a a = false := by
  rw [Bool.eq_false_iff]
  intro h
  exact lt_irrefl _ ((metricGt_iff_lt a a).mp h)

/-- Strict metric comparison is transitive. -/
theorem metricGt_trans {a b c : Nat × Nat × ℚ} (h1 : metricGt a b = true)
    (h2 : metricGt b c = true) : metricGt a c = true :=
  (metricGt_iff_lt a c).mpr
    (lt_trans ((metricGt_iff_lt b c).mp h2) ((metricGt_iff_lt a b).mp h1))

/-- Non-strict metric comparison (the negation of the strict one) is
transitive. -/
theorem metricGt_false_trans {a b c : Nat × Nat × ℚ}
    (h1 : metricGt a b = false) (h2 : metricGt b c = false) :
    metricGt a c = false := by
  rw [Bool.eq_false_iff] at h1 h2 ⊢
  intro h
  have l1 : metricLex a ≤ metricLex b :=
    not_lt.mp (fun hc => h1 ((metricGt_iff_lt a b).mpr hc))
  have l2 : metricLex b ≤ metricLex c :=
    not_lt.mp (fun hc => h2 ((metricGt_iff_lt b c).mpr hc))
  exact absurd ((metricGt_iff_lt a c).mp h) (not_lt.mpr (le_trans l1 l2))

/-- Running the selection fold from a present best yields a best element
among the start and the list, never beaten strictly by any of them. -/
theorem pickBest_from_some :
    ∀ (cands : List (String × ScrapeStats)) (a : String × ScrapeStats),
      (∀ c ∈ cands, c.2.hits ≠ 0) →
      ∃ b, cands.foldl pickStep (some a) = some b
        ∧ (b = a ∨ b ∈ cands)
        ∧ metricGt (scMetric a.2) (scMetric b.2) = false
        ∧ ∀ d ∈ cands, metricGt (scMetric d.2) (scMetric b.2) = false := by
  intro cands
  induction cands with
  | nil =>
    intro a _
    exact ⟨a, rfl, Or.inl rfl, metricGt_irrefl _, by simp⟩
  | cons c rest ih =>
    intro a h0
    have hc : c.2.hits ≠ 0 := h0 c (List.mem_cons_self _ _)
    have hc' : (c.2.hits == 0) = false := by simpa using hc
    have h0' : ∀ d ∈ rest, d.2.hits ≠ 0 := fun d hd => h0 d (List.mem_cons_of_mem _ hd)
    by_cases hgt : metricGt (scMetric c.2) (scMetric a.2) = true
    · obtain ⟨b, hfold, hmem, hab, hall⟩ := ih c h0'
      refine ⟨b, ?_, ?_, ?_, ?_⟩
      · simpa [List.foldl_cons, pickStep, hc', hgt] using hfold
      · rcases hmem with rfl | hm
        · exact Or.inr (List.mem_cons_self _ _)
        · exact Or.inr (List.mem_cons_of_mem _ hm)
      · rw [Bool.eq_false_iff]
        intro hab'
        exact absurd (metricGt_trans hgt hab') (Bool.eq_false_iff.mp hab)
      · intro d hd
        rcases List.mem_cons.mp hd with rfl | hd'
        · exact hab
        · exact hall d hd'
    · have hgt' : metricGt (scMetric c.2) (scMetric a.2) = false :=
        Bool.eq_false_iff.mpr hgt
      obtain ⟨b, hfold, hmem, hab, hall⟩ := ih a h0'
      refine ⟨b, ?_, ?_, hab, ?_⟩
      · simpa [List.foldl_cons, pickStep, hc', hgt'] using hfold
      · rcases hmem with rfl | hm
        · exact Or.inl rfl
        · exact Or.inr (List.mem_cons_of_mem _ hm)
      · intro d hd
        rcases List.mem_cons.mp hd with rfl | hd'
        · exact metricGt_false_trans hgt' hab
        · exact hall d hd'

/-- When every candidate has hits, the selection returns a candidate that no
candidate beats strictly. -/
theorem pickBest_some_spec (cands : List (String × ScrapeStats))
    (h0 : ∀ c ∈ cands, c.2.hits ≠ 0) :
    ∀ b, pickBest cands = some b →
      b ∈ cands ∧ ∀ d ∈ cands, metricGt (scMetric d.2) (scMetric b.2) = false := by
  match cands with
  | [] => intro b hb; simp [pickBest] at hb
  | c :: rest =>
    intro b hb
    have hc : c.2.hits ≠ 0 := h0 c (List.mem_cons_self _ _)
    have hc' : (c.2.hits == 0) = false := by simpa using hc
    have h0' : ∀ d ∈ rest, d.2.hits ≠ 0 := fun d hd => h0 d (List.mem_cons_of_mem _ hd)
    obtain ⟨b', hfold, hmem, hcb, hall⟩ := pickBest_from_some rest c h0'
    have hb' : b = b' := by
      have : pickBest (c :: rest) = some b' := by
        simpa [pickBest, List.foldl_cons, pickStep, hc'] using hfold
      rw [this] at hb
      exact (Option.some.injEq _ _ ▸ hb).symm
    subst hb'
    refine ⟨?_, ?_⟩
    · rcases hmem with rfl | hm
      · exact List.mem_cons_self _ _
      · exact List.mem_cons_of_mem _ hm
    · intro d hd
      rcases List.mem_cons.mp hd with rfl | hd'
      · exact hcb
      · exact hall d hd'

/-- When every candidate has hits, the selection is empty exactly when the
candidate list is. -/
theorem pickBest_none_iff (cands : List (String × ScrapeStats))
    (h0 : ∀ c ∈ cands, c.2.hits ≠ 0) :
    pickBest cands = none ↔ cands = [] := by
  constructor
  · intro h
    match cands, h with
    | [], _ => rfl
    | c :: rest, h =>
      have hc : c.2.hits ≠ 0 := h0 c (List.mem_cons_self _ _)
      have hc' : (c.2.hits == 0) = false := by simpa using hc
      have h0' : ∀ d ∈ rest, d.2.hits ≠ 0 := fun d hd => h0 d (List.mem_cons_of_mem _ hd)
      obtain ⟨b, hfold, _⟩ := pickBest_from_some rest c h0'
      have : pickBest (c :: rest) = some b := by
        simpa [pickBest, List.foldl_cons, pickStep, hc'] using hfold
      rw [this] at h
      exact absurd h (by simp)
  · intro h; subst h; rfl

/-- Every scrape candidate records at least one identity hit. -/
theorem scrape_candidates_hits (by_ip : List (String × List LogEntry))
    (top_ips : List String) :
    ∀ c ∈ scrape_candidates by_ip top_ips, c.2.hits ≠ 0 := by
  intro c hc
  obtain ⟨ip, _, hf⟩ := List.mem_filterMap.mp hc
  cases hlook : lookupGroup by_ip ip with
  | none => simp [scrape_candidates, hlook] at hf
  | some g =>
    simp only [hlook] at hf
    by_cases hemp : (g.filter isIdentityPath).isEmpty = true
    · simp [hemp] at hf
    · have hemp' : (g.filter isIdentityPath).isEmpty = false := Bool.eq_false_iff.mpr hemp
      simp only [hemp', Bool.false_eq_true, if_false, Option.some.injEq] at hf
      subst hf
      simp only [mkScrapeStats]
      intro hlen
      rw [← List.isEmpty_iff_length_eq_zero] at hlen
      exact hemp hlen

/-- The candidate list is empty exactly when no listed address has an
identity-matching event in its group. -/
theorem scrape_candidates_nil_iff (by_ip : List (String × List LogEntry))
    (top_ips : List String) :
    scrape_candidates by_ip top_ips = [] ↔
      ∀ ip ∈ top_ips, ∀ g, lookupGroup by_ip ip = some g →
        ∀ e ∈ g, isIdentityPath e = false := by
  rw [scrape_candidates, List.filterMap_eq_nil_iff]
  constructor
  · intro h ip hip g hg e he
    have := h ip hip
    rw [hg] at this
    by_cases hemp : (g.filter isIdentityPath).isEmpty = true
    · rw [List.isEmpty_iff] at hemp
      have := List.filter_eq_nil_iff.mp hemp e he
      simpa using this
    · simp [Bool.eq_false_iff.mpr hemp] at this
  · intro h ip hip
    cases hlook : lookupGroup by_ip ip with
    | none => simp [hlook]
    | some g =>
      have hfil : g.filter isIdentityPath = [] :=
        List.filter_eq_nil_iff.mpr (fun e he => by simp [h ip hip g hlook e he])
      simp [hlook, hfil]

/-- The conditional-append chain equals the filtered tag projection of the
catalog. -/
theorem chainTags_eq (cat : List (String × List (List RItem))) (d : String) :
    chainTags cat d = (cat.filter (fun p => rxSearch p.2 d)).map (fun p => p.1) := by
  induction cat with
  | nil => rfl
  | cons p rest ih =>
    unfold chainTags at ih ⊢
    simp only [List.foldr_cons, List.filter_cons]
    by_cases h : rxSearch p.2 d = true
    · simp [h, ih]
    · simp [Bool.eq_false_iff.mpr h, ih]

/-- C1: for every input URL, `detect_attacks` returns exactly the tags of
the catalog categories whose pattern group matches the once-percent-decoded
text, in the fixed catalog order SQLi, Traversal/LFI, XSS, SSRF, CMDi/Shell,
RCE, XXE, LDAP Injection, NoSQL Injection, each tag at most once; the result
is empty exactly when no catalog pattern matches, and a URL with both a
SQL-union pattern and a script tag carries both the SQLi and XSS tags. -/
theorem spec_C1_detect_attacks (url : String) :
    detect_attacks url =
      (ATTACK_CATALOG.filter (fun p => rxSearch p.2 (pyUnquote url))).map (fun p => p.1)
    ∧ (detect_attacks url).Nodup
    ∧ (detect_attacks url = [] ↔
        ∀ p ∈ ATTACK_CATALOG, rxSearch p.2 (pyUnquote url) = false)
    ∧ ATTACK_CATALOG.map (fun p => p.1) =
        ["SQLi", "Traversal/LFI", "XSS", "SSRF", "CMDi/Shell", "RCE", "XXE",
         "LDAP Injection", "NoSQL Injection"]
    ∧ "SQLi" ∈ detect_attacks "/a?id=1 union select x<script>"
    ∧ "XSS" ∈ detect_attacks "/a?id=1 union select x<script>" := by
  have hchain : detect_attacks url = chainTags ATTACK_CATALOG (pyUnquote url) := by
    simp only [detect_attacks, chainTags, ATTACK_CATALOG, List.foldr_cons,
      List.foldr_nil, List.append_nil, List.append_assoc]
  have hfil : detect_attacks url =
      (ATTACK_CATALOG.filter (fun p => rxSearch p.2 (pyUnquote url))).map (fun p => p.1) :=
    hchain.trans (chainTags_eq _ _)
  refine ⟨hfil, ?_, ?_, by decide, by decide, by decide⟩
  · rw [hfil]
    exact List.Nodup.sublist
      (List.Sublist.map _ (List.filter_sublist _)) (by decide)
  · rw [hfil]
    rw [List.map_eq_nil_iff, List.filter_eq_nil_iff]
    constructor
    · intro h p hp
      exact Bool.eq_false_iff.mpr (h p hp)
    · intro h p hp
      exact Bool.eq_false_iff.mp (h p hp)

/-- C2 counterexample: the catalog name `burpsuite` occurs as a whole word in
the user-agent `burpsuite`, yet `detect_tool` returns no tool at all, because
the pattern for that entry matches the abbreviation `burp` as a whole word,
which `burpsuite` does not contain. -/
theorem spec_C2_counterexample :
    detect_tool "burpsuite" = none
    ∧ "burpsuite" ∈ SCANNER_PATTERNS.map (fun p => p.1)
    ∧ wholeWordCI "burpsuite" "burpsuite" = true := by
  refine ⟨by decide, by decide, by decide⟩

/-- First-match lookup over the scanner table agrees with `find?`. -/
theorem findScanner_eq_find (pats : List (String × List (List RItem))) (ua : String) :
    findScanner pats ua = (pats.find? (fun p => rxSearch p.2 ua)).map (fun p => p.1) := by
  induction pats with
  | nil => rfl
  | cons p rest ih =>
    unfold findScanner
    by_cases h : rxSearch p.2 ua = true
    · simp [List.find?_cons, h]
    · simp [List.find?_cons, Bool.eq_false_iff.mpr h, ih]

/-- C2 amended: `detect_tool` returns, in priority order, the name of the
first scanner entry whose regex matches the user-agent case-insensitively —
for most entries the catalog name as a whole word, but curl and wget require
the name followed by a slash and a digit, and burpsuite and zaproxy match the
abbreviations burp and zap as whole words — else browser when the string
contains one of the literal markers, else bot on the generic bot pattern,
else none; an empty user-agent yields none. -/
theorem spec_C2_amended (ua : String) :
    detect_tool ua =
      (if ua = "" then none
       else
         match (SCANNER_PATTERNS.find? (fun p => rxSearch p.2 ua)).map (fun p => p.1) with
         | some name => some name
         | none =>
           if looksLikeBrowser ua then some "browser"
           else if rxSearch BOT_USER_AGENTS ua then some "bot"
           else none)
    ∧ detect_tool "" = none
    ∧ detect_tool "sqlmap/1.5" = some "sqlmap"
    ∧ detect_tool "Mozilla/5.0 (Windows NT 10.0; Win64; x64) Chrome/96.0" = some "browser"
    ∧ detect_tool "Googlebot/2.1" = some "bot"
    ∧ detect_tool "curl" = none
    ∧ detect_tool "curl/7.68.0" = some "curl"
    ∧ detect_tool "wget" = none
    ∧ detect_tool "wget/1.20" = some "wget"
    ∧ detect_tool "zaproxy" = none
    ∧ detect_tool "zap/2.0" = some "zaproxy" := by
  refine ⟨?_, by decide, by decide, by decide, by decide, by decide, by decide,
    by decide, by decide, by decide, by decide⟩
  unfold detect_tool
  rw [findScanner_eq_find]

/-- C9 counterexample: re-decoding is not neutral.  The doubly encoded
semicolon `%253b` decodes once to `%3b`, which matches no catalog pattern,
but decoding it again yields `;`, which carries the CMDi/Shell tag, so
`detect_attacks` differs between the raw and once-decoded input. -/
theorem spec_C9_counterexample :
    detect_attacks "%253b" = []
    ∧ pyUnquote "%253b" = "%3b"
    ∧ detect_attacks (pyUnquote "%253b") = ["CMDi/Shell"]
    ∧ detect_attacks "%253b" ≠ detect_attacks (pyUnquote "%253b") := by
  refine ⟨by decide, by decide, by decide, by decide⟩

/-- C9 amended: `detect_attacks` evaluates the once-decoded text, so an extra
decoding pass is neutral exactly on inputs whose once-decoded form is a fixed
point of decoding; in general a second decode can add or remove tags. -/
theorem spec_C9_amended (s : String)
    (h : pyUnquote (pyUnquote s) = pyUnquote s) :
    detect_attacks (pyUnquote s) = detect_attacks s := by
  unfold detect_attacks
  rw [h]

/-- Witness for the amended C9 at a concrete decode-stable input. -/
theorem spec_C9_amended_witness :
    detect_attacks (pyUnquote "a%3bb") = detect_attacks "a%3bb" :=
  spec_C9_amended "a%3bb" (by decide)

/-- C10: `analyze` always returns zero file and failure counters (set later
by the caller), reports the input length as the parsed-event count, and
passes the event collection through untruncated. -/
theorem spec_C10_analyze_counters (min_requests top_n : Nat) (entries : List LogEntry) :
    (analyze min_requests top_n entries).files_read = 0
    ∧ (analyze min_requests top_n entries).parse_failures = 0
    ∧ (analyze min_requests top_n entries).parsed_events = entries.length
    ∧ (analyze min_requests top_n entries).all_events = entries :=
  ⟨rfl, rfl, rfl, rfl⟩

/-- C6: the scrape inference is computed from the already-ranked top
addresses only; it is `none` exactly when no listed address has an
identity-matching event in its group, and otherwise it returns the single
most-frequently-hit identity path of a candidate whose lexicographic metric
triple (identity hits, 2xx successes, mean bytes) no candidate strictly
exceeds. -/
theorem spec_C6_scrape_inference (by_ip : List (String × List LogEntry))
    (top_ips : List String) :
    (infer_scrape_section by_ip top_ips = none ↔
      ∀ ip ∈ top_ips, ∀ g, lookupGroup by_ip ip = some g →
        ∀ e ∈ g, isIdentityPath e = false)
    ∧ (∀ path, infer_scrape_section by_ip top_ips = some path →
        ∃ c ∈ scrape_candidates by_ip top_ips,
          path = most_common1 c.2.paths
          ∧ ∀ d ∈ scrape_candidates by_ip top_ips,
              metricGt (scMetric d.2) (scMetric c.2) = false)
    ∧ (∀ (min_requests top_n : Nat) (entries : List LogEntry),
        (analyze min_requests top_n entries).inferred_scrape_section =
          infer_scrape_section (groupByIp entries)
            (((analyze min_requests top_n entries).top_suspicious_ips).map
              (fun a => a.ip))) := by
  have h0 := scrape_candidates_hits by_ip top_ips
  refine ⟨?_, ?_, fun _ _ _ => rfl⟩
  · rw [infer_scrape_section, Option.map_eq_none', pickBest_none_iff _ h0,
      scrape_candidates_nil_iff]
  · intro path hp
    rw [infer_scrape_section] at hp
    obtain ⟨b, hb, heq⟩ := Option.map_eq_some'.mp hp
    obtain ⟨hmem, hmax⟩ := pickBest_some_spec _ h0 b hb
    exact ⟨b, hmem, heq.symm, hmax⟩

/-- Witness for C6 at a concrete group and ranked-address list with one
identity-matching event. -/
theorem spec_C6_witness :
    ∃ c ∈ scrape_candidates
        [("a", [⟨"a", none, "GET", "/profile", "/profile", "", 200, 10, "",
          none, none, []⟩])] ["a"],
      "/profile" = most_common1 c.2.paths
      ∧ ∀ d ∈ scrape_candidates
            [("a", [⟨"a", none, "GET", "/profile", "/profile", "", 200, 10, "",
              none, none, []⟩])] ["a"],
          metricGt (scMetric d.2) (scMetric c.2) = false :=
  (spec_C6_scrape_inference
    [("a", [⟨"a", none, "GET", "/profile", "/profile", "", 200, 10, "",
      none, none, []⟩])] ["a"]).2.1 "/profile" (by decide)

/-- A filtered-histogram range sum counts the events whose status satisfies
the range predicate. -/
theorem counter_range_sum (events : List LogEntry) (P : Nat → Bool) :
    (((counterOf (events.map (fun e => e.status))).filter
      (fun p => P p.1)).map (fun p => p.2)).sum
      = (events.filter (fun e => P e.status)).length := by
  unfold counterOf groupByKey
  rw [List.filter_map, List.map_map]
  have hsum := groupByKeyF_countP_sum (fun k : Nat => k) P
    (events.map (fun e => e.status)).length (events.map (fun e => e.status)) le_rfl
  have h2 : List.countP (fun x : Nat => P x) (events.map (fun e => e.status))
      = (events.filter (fun e => P e.status)).length := by
    rw [List.countP_map]
    exact List.countP_eq_length_filter _ _
  exact hsum.trans h2

/-- C3: the composite score of an address group is exactly the fixed-weight
linear sum `0.002 n + 0.02 fivexx + 0.01 fourxx + 0.05 abnormal +
0.03 login + 0.02 identity + 0.01 peakRpm`, where the status counts, tag
count and vocabulary counts are direct event counts and the peak is the
maximum event count over the distinct minute buckets of the timestamped
events (zero when none has a timestamp). -/
theorem spec_C3_composite_score (ip : String) (events : List LogEntry) :
    (analyze_ip ip events).score =
      0.002 * (Nat.cast events.length : ℚ)
      + 0.02 * (Nat.cast (events.filter (fun e => in5xx e.status)).length : ℚ)
      + 0.01 * (Nat.cast (events.filter (fun e => in4xx e.status)).length : ℚ)
      + 0.05 * (Nat.cast (events.filter hasAttackTags).length : ℚ)
      + 0.03 * (Nat.cast (events.filter isLoginPath).length : ℚ)
      + 0.02 * (Nat.cast (events.filter isIdentityPath).length : ℚ)
      + 0.01 * (Nat.cast (foldMax
          (((events.filterMap (fun e => e.timestamp.map minuteKey)).dedup).map
            (fun k => (events.filterMap (fun e => e.timestamp.map minuteKey)).count k))) : ℚ) := by
  have hscore : (analyze_ip ip events).score =
      (0.002 * (Nat.cast events.length : ℚ)
      + 0.02 * (Nat.cast ((((counterOf (events.map (fun e => e.status))).filter
          (fun p => in5xx p.1)).map (fun p => p.2)).sum) : ℚ)
      + 0.01 * (Nat.cast ((((counterOf (events.map (fun e => e.status))).filter
          (fun p => in4xx p.1)).map (fun p => p.2)).sum) : ℚ)
      + 0.05 * (Nat.cast (events.filter hasAttackTags).length : ℚ)
      + 0.03 * (Nat.cast (events.filter isLoginPath).length : ℚ)
      + 0.02 * (Nat.cast (events.filter isIdentityPath).length : ℚ)
      + 0.01 * (Nat.cast (foldMax ((counterOf (events.filterMap
          (fun e => e.timestamp.map minuteKey))).map (fun p => p.2))) : ℚ)) := rfl
  rw [hscore, counter_range_sum events in5xx, counter_range_sum events in4xx,
    foldMax_counterOf]

/-- C4: the ranked address list holds at most `top_n` profiles, every profile
counts at least `min_requests` events of its address (so addresses with
fewer events never appear), the scores are non-increasing along the list,
and profiles with equal scores keep the order in which their addresses first
occur in the event list. -/
theorem spec_C4_ranking (min_requests top_n : Nat) (entries : List LogEntry) :
    ((analyze min_requests top_n entries).top_suspicious_ips).length ≤ top_n
    ∧ (∀ p ∈ (analyze min_requests top_n entries).top_suspicious_ips,
        min_requests ≤ p.request_count
        ∧ p.request_count = (entries.filter (fun e => e.ip == p.ip)).length)
    ∧ ((analyze min_requests top_n entries).top_suspicious_ips).Pairwise
        (fun a b => b.score ≤ a.score
          ∧ (b.score = a.score →
              entries.findIdx (fun e => e.ip == a.ip) <
                entries.findIdx (fun e => e.ip == b.ip))) := by
  have htop : (analyze min_requests top_n entries).top_suspicious_ips =
      (sortDesc (fun a => a.score)
        (((groupByIp entries).filter (fun p => decide (min_requests ≤ p.2.length))).map
          (fun p => analyze_ip p.1 p.2))).take top_n := rfl
  refine ⟨?_, ?_, ?_⟩
  · rw [htop]
    exact List.length_take_le _ _
  · intro p hp
    rw [htop] at hp
    have hp1 := List.mem_of_mem_take hp
    have hp2 := (sortDesc_perm (fun a : IPAnalysis => a.score) _).mem_iff.mp hp1
    obtain ⟨⟨k, g⟩, hkg, rfl⟩ := List.mem_map.mp hp2
    have hmf := List.mem_filter.mp hkg
    have hcond : min_requests ≤ g.length := of_decide_eq_true hmf.2
    obtain ⟨_, hval⟩ := groupByKeyF_sound (fun e : LogEntry => e.ip)
      entries.length entries le_rfl _ hmf.1
    refine ⟨hcond, ?_⟩
    show g.length = (entries.filter (fun e => e.ip == (analyze_ip k g).ip)).length
    rw [show g = List.filter (fun e => e.ip == k) entries from hval]
    rfl
  · rw [htop]
    refine List.Pairwise.sublist (List.take_sublist _ _) ?_
    refine sortDesc_pairwise (fun a : IPAnalysis => a.score)
      (fun a => entries.findIdx (fun e => e.ip == a.ip)) _ ?_
    have hgroups := groupByKeyF_pairwise (fun e : LogEntry => e.ip)
      entries.length entries le_rfl
    have hfil : (((groupByIp entries).filter
        (fun p => decide (min_requests ≤ p.2.length)))).Pairwise
        (fun p q => entries.findIdx (fun y => y.ip == p.1) <
          entries.findIdx (fun y => y.ip == q.1)) :=
      List.Pairwise.sublist (List.filter_sublist _) hgroups
    refine List.Pairwise.map _ ?_ hfil
    intro p q h
    exact h

/-- C5: the endpoint ranking is computed only from SQLi-tagged events grouped
by path; each entry counts its hits, its 5xx hits and its distinct
200-character payload prefixes, keeps at most five example raw targets in
encounter order, scores `3 hits + 2 hits5xx + distinct`, and the list is
sorted by score non-increasingly with ties in the encounter order of each
path's first SQLi-tagged event. -/
theorem spec_C5_endpoint_ranking (entries : List LogEntry) :
    (∀ v ∈ rank_vulnerable_endpoints entries,
      v.sqli_hits = ((entries.filter sqliTagged).filter
          (fun e => e.path == v.endpoint)).length
      ∧ v.sqli_500 = (((entries.filter sqliTagged).filter
          (fun e => e.path == v.endpoint)).filter (fun e => in5xx e.status)).length
      ∧ v.unique_payloads = ((((entries.filter sqliTagged).filter
          (fun e => e.path == v.endpoint)).map (fun e => strTake e.url 200)).dedup).length
      ∧ v.examples = (((entries.filter sqliTagged).filter
          (fun e => e.path == v.endpoint)).map (fun e => e.url)).take 5
      ∧ v.examples.length ≤ 5
      ∧ v.score = 3 * v.sqli_hits + 2 * v.sqli_500 + v.unique_payloads)
    ∧ (rank_vulnerable_endpoints entries).Pairwise
        (fun a b => b.score ≤ a.score
          ∧ (b.score = a.score →
              (entries.filter sqliTagged).findIdx (fun e => e.path == a.endpoint) <
                (entries.filter sqliTagged).findIdx (fun e => e.path == b.endpoint))) := by
  have hrank : rank_vulnerable_endpoints entries =
      sortDesc (fun v => v.score)
        ((groupByKey (fun e : LogEntry => e.path) (entries.filter sqliTagged)).map
          (fun p => mkVuln p.1 p.2)) := rfl
  constructor
  · intro v hv
    rw [hrank] at hv
    have hv1 := (sortDesc_perm (fun v : EndpointVulnerability => v.score) _).mem_iff.mp hv
    obtain ⟨⟨k, g⟩, hkg, rfl⟩ := List.mem_map.mp hv1
    obtain ⟨_, hval⟩ := groupByKeyF_sound (fun e : LogEntry => e.path)
      (entries.filter sqliTagged).length (entries.filter sqliTagged) le_rfl _ hkg
    have hg : g = List.filter (fun e => e.path == k) (entries.filter sqliTagged) := hval
    refine ⟨?_, ?_, ?_, ?_, ?_, rfl⟩
    · show g.length = _
      rw [hg]
      rfl
    · show (g.filter (fun e => in5xx e.status)).length = _
      rw [hg]
      rfl
    · show (dedupF (g.map (fun e => strTake e.url 200))).length = _
      rw [dedupF_length, hg]
      rfl
    · show (g.map (fun e => e.url)).take 5 = _
      rw [hg]
      rfl
    · show ((g.map (fun e => e.url)).take 5).length ≤ 5
      exact List.length_take_le _ _
  · rw [hrank]
    refine sortDesc_pairwise (fun v : EndpointVulnerability => v.score)
      (fun v => (entries.filter sqliTagged).findIdx (fun e => e.path == v.endpoint)) _ ?_
    have hgroups := groupByKeyF_pairwise (fun e : LogEntry => e.path)
      (entries.filter sqliTagged).length (entries.filter sqliTagged) le_rfl
    refine List.Pairwise.map _ ?_ hgroups
    intro p q h
    exact h

/-- On digit-only input, the underscore-aware accumulator is total and folds
the digits. -/
theorem digitsValAcc_digits :
    ∀ (l : List Char) (acc : Nat), l.all Char.isDigit = true →
      digitsValAcc acc l = some (l.foldl (fun a c => a * 10 + (c.toNat - 48)) acc)
  | [], _, _ => rfl
  | c :: r, acc, h => by
    have hall : Char.isDigit c = true ∧ r.all Char.isDigit = true := by simpa using h
    have hc : c.isDigit = true := hall.1
    have hcu : (c == '_') = false := by
      cases hq : c == '_' with
      | false => rfl
      | true =>
        have : c = '_' := by simpa using hq
        rw [this] at hc
        exact absurd hc (by decide)
    unfold digitsValAcc
    rw [hcu]
    simp only [Bool.false_eq_true, if_false, hc, if_true]
    exact digitsValAcc_digits r _ hall.2

/-- A digit-only character list has no leading whitespace to strip. -/
theorem dropWhile_space_of_digits (l : List Char) (h : l.all Char.isDigit = true) :
    l.dropWhile isSpaceChar = l := by
  cases l with
  | nil => rfl
  | cons c r =>
    have hc : c.isDigit = true ∧ r.all Char.isDigit = true := by simpa using h
    have hs : isSpaceChar c = false := by
      cases hq : isSpaceChar c with
      | false => rfl
      | true =>
        have hor : ((((c = ' ' ∨ c = '\t') ∨ c = '\n') ∨ c = '\x0d') ∨ c = '\x0b') ∨
            c = '\x0c' := by
          simpa [isSpaceChar] using hq
        rcases hor with ((((rfl | rfl) | rfl) | rfl) | rfl) | rfl <;>
          exact absurd hc.1 (by decide)
    rw [List.dropWhile_cons, hs]
    simp

/-- Python `int` on a nonempty digit-only token returns the base-ten value. -/
theorem pyInt_all_digits (s : String) (h : s.data.all Char.isDigit = true)
    (hne : s.data ≠ []) : pyInt s = some ((digitsVal s.data : Nat) : Int) := by
  have hrev : s.data.reverse.all Char.isDigit = true := by
    rw [List.all_reverse]
    exact h
  have hstrip : ((s.data.dropWhile isSpaceChar).reverse.dropWhile isSpaceChar).reverse
      = s.data := by
    rw [dropWhile_space_of_digits _ h, dropWhile_space_of_digits _ hrev,
      List.reverse_reverse]
  unfold pyInt
  rw [hstrip]
  match hd : s.data with
  | [] => exact absurd hd hne
  | c :: r =>
    rw [hd] at h
    have hall : Char.isDigit c = true ∧ r.all Char.isDigit = true := by simpa using h
    have hplus : (c == '+') = false := by
      cases hq : c == '+' with
      | false => rfl
      | true =>
        have : c = '+' := by simpa using hq
        rw [this] at hall
        exact absurd hall.1 (by decide)
    have hminus : (c == '-') = false := by
      cases hq : c == '-' with
      | false => rfl
      | true =>
        have : c = '-' := by simpa using hq
        rw [this] at hall
        exact absurd hall.1 (by decide)
    have hdigits : pyIntDigits (c :: r) = some (digitsVal (c :: r)) := by
      unfold pyIntDigits
      simp only [hall.1, if_true]
      rw [digitsValAcc_digits r _ hall.2]
      unfold digitsVal
      rw [List.foldl_cons]
      norm_num
    simp only [hplus, hminus, Bool.false_eq_true, if_false, hdigits, Option.map_some']
    rfl

/-- C7 counterexample: a line matching the combined grammar whose timestamp
parses under neither format but whose request target carries an unbalanced
bracket in its authority yields no event at all: `urlsplit` raises, the
exception escapes `parse_line` unhandled, and the file loop aborts instead
of skipping or counting the line. -/
theorem spec_C7_counterexample :
    matchCombined "1.2.3.4 - - [notatime] \"GET //[a\" 200 5" =
      some ⟨"1.2.3.4", "notatime", "GET", "//[a", none, "200", "5", none, none⟩
    ∧ parse_timestamp "notatime" = none
    ∧ urlsplitM "//[a" = Except.error "Invalid IPv6 URL"
    ∧ parse_line "1.2.3.4 - - [notatime] \"GET //[a\" 200 5" =
        Except.error "Invalid IPv6 URL"
    ∧ parse_file_lines ["1.2.3.4 - - [notatime] \"GET //[a\" 200 5"] =
        Except.error "Invalid IPv6 URL" :=
  ⟨rfl, rfl, rfl, rfl, rfl⟩

/-- C7 (amended): a line that matches the combined grammar, whose bracketed
timestamp parses under neither format, and whose request target splits
without error still yields an event: the timestamp is absent, every other
field is extracted exactly as for any timestamp outcome, and processing such
a line counts no failure. -/
theorem spec_C7_timestamp_fallback (line : String) (g : RawGroups) (su : SplitUrl)
    (hm : matchCombined line = some g) (ht : parse_timestamp g.ts = none)
    (hu : urlsplitM g.url = Except.ok su) :
    parse_line line = Except.ok (some (buildEntry g none su))
    ∧ (buildEntry g none su).timestamp = none
    ∧ (∀ t : Option Timestamp,
        nonTsFields (buildEntry g t su) = nonTsFields (buildEntry g none su))
    ∧ (∀ raw : String, stripNl raw = line →
        parse_file_lines [raw] = Except.ok ([buildEntry g none su], 0)) := by
  have hpl : parse_line line = Except.ok (some (buildEntry g none su)) := by
    unfold parse_line
    rw [hm]
    show (match urlsplitM g.url with
      | Except.error e => Except.error e
      | Except.ok su2 => Except.ok (some (buildEntry g (parse_timestamp g.ts) su2))) =
      Except.ok (some (buildEntry g none su))
    rw [ht, hu]
  refine ⟨hpl, rfl, fun t => rfl, ?_⟩
  intro raw hraw
  have hne : ¬(line = "") := by
    intro h
    rw [h] at hm
    have h0 : matchCombined "" = none := by decide
    rw [h0] at hm
    exact Option.noConfusion hm
  unfold parse_file_lines
  rw [hraw]
  show (if line = "" then parse_file_lines []
    else
      match parse_line line with
      | Except.error e => Except.error e
      | Except.ok none =>
        match parse_file_lines [] with
        | Except.error e => Except.error e
        | Except.ok (es, fs) => Except.ok (es, fs + 1)
      | Except.ok (some entry) =>
        match parse_file_lines [] with
        | Except.error e => Except.error e
        | Except.ok (es, fs) => Except.ok (entry :: es, fs)) =
      Except.ok ([buildEntry g none su], 0)
  rw [if_neg hne, hpl]
  rfl

/-- Witness for the amended C7 at a concrete line with an unparseable
timestamp and a cleanly splitting request target. -/
theorem spec_C7_witness :
    parse_line "1.2.3.4 - - [notatime] \"GET /x?a=1 HTTP/1.1\" 200 123 \"-\" \"curl/7.0\"" =
      Except.ok (some (buildEntry ⟨"1.2.3.4", "notatime", "GET", "/x?a=1", some "1.1",
        "200", "123", some "-", some "curl/7.0"⟩ none ⟨"", "", "/x", "a=1", ""⟩)) :=
  (spec_C7_timestamp_fallback
    "1.2.3.4 - - [notatime] \"GET /x?a=1 HTTP/1.1\" 200 123 \"-\" \"curl/7.0\""
    ⟨"1.2.3.4", "notatime", "GET", "/x?a=1", some "1.1", "200", "123",
      some "-", some "curl/7.0"⟩ ⟨"", "", "/x", "a=1", ""⟩
    (by decide) (by decide) rfl).1

/-- C8 counterexample: a byte-count token with a leading minus sign is
accepted by the integer conversion, so the emitted byte count is negative,
contradicting non-negativity. -/
theorem spec_C8_counterexample :
    (parse_line "1.2.3.4 - - [17/Jan/2026:10:00:00 +0000] \"GET /a\" 200 -5").map
      (fun o => o.map (fun e => e.bytes)) = Except.ok (some (-5))
    ∧ ¬(0 ≤ (-5 : Int)) :=
  ⟨rfl, by decide⟩

/-- C8 amended: for every line matching the combined grammar the byte token
never fails the line; an error can arise only from splitting the request
target, and it propagates unchanged.  When the target splits, an event is
emitted whose byte count is zero when the token is `-`, empty, or rejected by
integer conversion, equals the token's signed integer value otherwise, and is
the non-negative base-ten value whenever the token is all digits. -/
theorem spec_C8_bytes_amended (line : String) (g : RawGroups)
    (hm : matchCombined line = some g) :
    (∀ err : String, urlsplitM g.url = Except.error err →
        parse_line line = Except.error err)
    ∧ ∀ su : SplitUrl, urlsplitM g.url = Except.ok su →
        parse_line line = Except.ok (some (buildEntry g (parse_timestamp g.ts) su))
        ∧ (buildEntry g (parse_timestamp g.ts) su).bytes =
            (if g.bytesTok = "-" ∨ g.bytesTok = "" then 0 else (pyInt g.bytesTok).getD 0)
        ∧ (pyInt g.bytesTok = none →
            (buildEntry g (parse_timestamp g.ts) su).bytes = 0)
        ∧ (g.bytesTok.data.all Char.isDigit = true →
            (buildEntry g (parse_timestamp g.ts) su).bytes =
              ((digitsVal g.bytesTok.data : Nat) : Int)) := by
  have hpl : parse_line line =
      (match urlsplitM g.url with
        | Except.error e => Except.error e
        | Except.ok su => Except.ok (some (buildEntry g (parse_timestamp g.ts) su))) := by
    unfold parse_line
    rw [hm]
  have hbytes : ∀ su : SplitUrl, (buildEntry g (parse_timestamp g.ts) su).bytes =
      (if g.bytesTok = "-" ∨ g.bytesTok = "" then 0 else (pyInt g.bytesTok).getD 0) :=
    fun su => rfl
  constructor
  · intro err herr
    rw [hpl, herr]
  · intro su hsu
    refine ⟨by rw [hpl, hsu], hbytes su, ?_, ?_⟩
    · intro hnone
      rw [hbytes su, hnone]
      by_cases hd : g.bytesTok = "-" ∨ g.bytesTok = ""
      · rw [if_pos hd]
      · rw [if_neg hd]
        rfl
    · intro hdig
      by_cases hemp : g.bytesTok = ""
      · rw [hbytes su, if_pos (Or.inr hemp), hemp]
        rfl
      · have hne : g.bytesTok.data ≠ [] := by
          intro hdata
          exact hemp (String.ext hdata)
        have hdash : ¬(g.bytesTok = "-") := by
          intro hd
          rw [hd] at hdig
          exact absurd hdig (by decide)
        rw [hbytes su, if_neg (by tauto), pyInt_all_digits _ hdig hne]
        rfl

/-- Witness for the amended C8 at a concrete signed byte token. -/
theorem spec_C8_witness :
    parse_line "1.2.3.4 - - [17/Jan/2026:10:00:00 +0000] \"GET /a\" 200 -5" =
      Except.ok (some (buildEntry
        ⟨"1.2.3.4", "17/Jan/2026:10:00:00 +0000", "GET", "/a", none, "200", "-5",
          none, none⟩
        (parse_timestamp "17/Jan/2026:10:00:00 +0000") ⟨"", "", "/a", "", ""⟩))
    ∧ (buildEntry
        ⟨"1.2.3.4", "17/Jan/2026:10:00:00 +0000", "GET", "/a", none, "200", "-5",
          none, none⟩
        (parse_timestamp "17/Jan/2026:10:00:00 +0000") ⟨"", "", "/a", "", ""⟩).bytes =
      (if ("-5" : String) = "-" ∨ ("-5" : String) = "" then 0
        else (pyInt "-5").getD 0) :=
  ⟨((spec_C8_bytes_amended
      "1.2.3.4 - - [17/Jan/2026:10:00:00 +0000] \"GET /a\" 200 -5"
      ⟨"1.2.3.4", "17/Jan/2026:10:00:00 +0000", "GET", "/a", none, "200", "-5",
        none, none⟩ (by decide)).2 ⟨"", "", "/a", "", ""⟩ rfl).1,
   ((spec_C8_bytes_amended
      "1.2.3.4 - - [17/Jan/2026:10:00:00 +0000] \"GET /a\" 200 -5"
      ⟨"1.2.3.4", "17/Jan/2026:10:00:00 +0000", "GET", "/a", none, "200", "-5",
        none, none⟩ (by decide)).2 ⟨"", "", "/a", "", ""⟩ rfl).2.1⟩
